import Mathlib

/-!
Verification of the grade6-science-prep repository.

The repository ships two near-identical Node scripts that batch-generate
lesson Markdown files from an outline JSON by calling a chat-completion
HTTP endpoint, plus a small unit-icon lookup used by the site.  We embed
the relevant functions shallowly: JS strings are Lean `String`
(a list of Unicode scalar chars), the specific regular expressions used by
the scripts are translated to explicit recursive functions with JS
backtracking semantics, the process environment / files / network are
explicit parameters, and the sequential driver loop is a recursion that
emits an event trace.  `String.prototype.toLowerCase` is modelled on the
ASCII range (the only cased characters the scripts' character classes can
interact with), and `slice(0, 500)` is modelled at character granularity.
-/

/-! ## Character classes and basic string helpers -/

/-- The ECMAScript whitespace class matched by the regex class backslash-s
and trimmed by `String.prototype.trim`. -/
def isJsWs (c : Char) : Bool :=
  c = ' ' || c = '\t' || c = '\n' || c = '\x0b' || c = '\x0c' || c = '\r' ||
  c = '\u00a0' || c = '\u1680' ||
  (decide ('\u2000' ≤ c) && decide (c ≤ '\u200a')) ||
  c = '\u2028' || c = '\u2029' || c = '\u202f' || c = '\u205f' ||
  c = '\u3000' || c = '\ufeff'

/-- The ASCII case canonicalization of the two case-insensitive regexes:
in an ECMAScript regex without the unicode flag, a pattern character never
matches a non-ASCII character via case folding (a character whose upper
case would be ASCII is left unchanged by Canonicalize), so for the ASCII
literal `unsplash:` this model is exact. -/
def jsToLower (c : Char) : Char :=
  if 'A' ≤ c ∧ c ≤ 'Z' then Char.ofNat (c.toNat + 32) else c

/-- `String.prototype.toLowerCase` (default full Unicode lowercasing), one
character of input at a time.  The mapping is encoded exactly on every
character whose lowercase contains a character of the `safeSlug` keep
class: `A`-`Z`, U+212A KELVIN SIGN (lowercase `k`), and U+0130 LATIN
CAPITAL LETTER I WITH DOT ABOVE (lowercase `i` followed by U+0307, the
only one-to-many default lowercase mapping).  Every other character is
modelled as fixed: its real lowercase never contains an ASCII letter,
an ASCII digit, or a CJK ideograph, so the character class replaces it by
a hyphen either way and every downstream computation agrees. -/
def jsToLowerChars (c : Char) : List Char :=
  if 'A' ≤ c ∧ c ≤ 'Z' then [Char.ofNat (c.toNat + 32)]
  else if c = '\u212a' then ['k']
  else if c = '\u0130' then ['i', '\u0307']
  else [c]

/-- `l` with leading and trailing JS whitespace removed:
`String.prototype.trim` on the char list. -/
def jsTrimList (l : List Char) : List Char :=
  ((l.dropWhile isJsWs).reverse.dropWhile isJsWs).reverse

/-- `String.prototype.trim`. -/
def jsTrimS (s : String) : String :=
  String.mk (jsTrimList s.data)

/-- Does `l` start with the literal char list `p`? -/
def startsWithList : List Char → List Char → Bool
  | [], _ => true
  | _ :: _, [] => false
  | p :: ps, c :: cs => p = c && startsWithList ps cs

/-- Does `l` contain `pat` as a contiguous substring? -/
def containsSub (pat : List Char) : List Char → Bool
  | [] => pat.isEmpty
  | c :: cs => startsWithList pat (c :: cs) || containsSub pat cs

/-- Join a list of strings with a separator: `Array.prototype.join`. -/
def joinSep (sep : String) : List String → String
  | [] => ""
  | [x] => x
  | x :: y :: xs => x ++ sep ++ joinSep sep (y :: xs)

/-- First `n` characters of `s`: `String.prototype.slice(0, n)` at
character granularity. -/
def takeChars (n : Nat) (s : String) : String :=
  String.mk (s.data.take n)

/-! ## src/src/lib/units.ts

The source file on disk stores its Chinese keys and emoji values as
mojibake (UTF-8 bytes that were at some point decoded with a legacy code
page); we embed the exact Unicode scalar sequences the file contains,
written with explicit escapes. -/

/-- First key of the `UNIT_ICONS` table, exactly as stored in the file. -/
def unitKey1 : String :=
  "\u00e5\u00b0\u00e5\u00b0\u00e5\u00b7\u00a5\u00e7\u00a8\u2039\u00e5\u00b8\u02c6"

/-- Second key of the `UNIT_ICONS` table. -/
def unitKey2 : String :=
  "\u00e7\u201d\u0178\u00e7\u2030\u00a9\u00e7\u0161\u201e\u00e5\u00a4\u0161\u00e6\u00a0\u00b7\u00e6\u20ac\u00a7"

/-- Third key of the `UNIT_ICONS` table. -/
def unitKey3 : String :=
  "\u00e5\u00ae\u2021\u00e5\u00ae\u2122"

/-- Fourth key of the `UNIT_ICONS` table. -/
def unitKey4 : String :=
  "\u00e7\u2030\u00a9\u00e8\u00b4\u00a8\u00e7\u0161\u201e\u00e5\u02dc\u00e5\u0152\u2013"

/-- Icon for the first key. -/
def unitIconVal1 : String := "\u011f\u0178\u00a7\u00b1"

/-- Icon for the second key. -/
def unitIconVal2 : String := "\u011f\u0178\u0152\u00bf"

/-- Icon for the third key. -/
def unitIconVal3 : String := "\u011f\u0178\u00aa"

/-- Icon for the fourth key. -/
def unitIconVal4 : String := "\u011f\u0178\u00a7\u00aa"

/-- The default book icon returned for missing or unknown units. -/
def bookIcon : String := "\u011f\u0178\u201c\u02dc"

/-- The `UNIT_ICONS` record, as an association list in source order. -/
def UNIT_ICONS : List (String × String) :=
  [(unitKey1, unitIconVal1), (unitKey2, unitIconVal2),
   (unitKey3, unitIconVal3), (unitKey4, unitIconVal4)]

/-- A value `unitIcon` can return at runtime: one of the icon strings (or
the book-icon default), or a non-string value inherited from
`Object.prototype` through the object literal's prototype chain (such as
the `toString` function), tagged with the property name. -/
inductive JsValue where
  | str (s : String)
  | inherited (name : String)
deriving DecidableEq

/-- The property names an object literal inherits from `Object.prototype`.
Every one of their values (eleven methods and the `__proto__` accessor's
result, the prototype object itself) is non-nullish, so nullish
coalescing never replaces them. -/
def objectProtoProps : List String :=
  ["constructor", "hasOwnProperty", "isPrototypeOf", "propertyIsEnumerable",
   "toLocaleString", "toString", "valueOf", "__proto__", "__defineGetter__",
   "__defineSetter__", "__lookupGetter__", "__lookupSetter__"]

/-- `unitIcon(unit?: string)`: `undefined` is `none`; the JS falsiness test
`!unit` is true for `undefined` and for the empty string; `UNIT_ICONS[unit]`
is a property lookup that first finds own properties (the four keys) and
then walks the prototype chain (the `Object.prototype` properties, whose
non-nullish values the `??` fallback passes through unchanged); only when
the lookup yields `undefined` does the nullish coalescing produce the book
icon. -/
def unitIcon (unit : Option String) : JsValue :=
  match unit with
  | none => JsValue.str bookIcon
  | some u =>
    if u = "" then JsValue.str bookIcon
    else
      match (UNIT_ICONS.find? (fun p => p.1 = u)) with
      | some p => JsValue.str p.2
      | none =>
        if u ∈ objectProtoProps then JsValue.inherited u
        else JsValue.str bookIcon

/-! ## safeSlug (both script variants, identical code) -/

/-- The character class kept by `safeSlug`: lowercase ASCII letters, ASCII
digits, CJK ideographs in the range u4e00 to u9fa5. -/
def isSlugChar (c : Char) : Bool :=
  (decide ('a' ≤ c) && decide (c ≤ 'z')) ||
  (decide ('0' ≤ c) && decide (c ≤ '9')) ||
  (decide ('\u4e00' ≤ c) && decide (c ≤ '\u9fa5'))

/-- `replace(<class complement, one or more>g, '-')`: each maximal run of
non-slug characters becomes a single hyphen.  The flag records whether the
scan is inside a non-slug run whose hyphen has already been emitted. -/
def collapseBadAux : Bool → List Char → List Char
  | _, [] => []
  | inBad, c :: cs =>
    if isSlugChar c then c :: collapseBadAux false cs
    else if inBad then collapseBadAux true cs
    else '-' :: collapseBadAux true cs

/-- The first replace of `safeSlug`, starting outside a run. -/
def collapseBad (l : List Char) : List Char :=
  collapseBadAux false l

/-- `replace(<hyphen, one or more>g, '-')`: each maximal run of hyphens
becomes a single hyphen; the flag records whether the scan is inside a
hyphen run whose hyphen has already been emitted. -/
def collapseDashAux : Bool → List Char → List Char
  | _, [] => []
  | inD, c :: cs =>
    if c = '-' then
      (if inD then collapseDashAux true cs else '-' :: collapseDashAux true cs)
    else c :: collapseDashAux false cs

/-- The second replace of `safeSlug`. -/
def collapseDash (l : List Char) : List Char :=
  collapseDashAux false l

/-- Remove one leading hyphen, if present (the caret-hyphen alternative of
the final regex of `safeSlug`). -/
def dropOneLead (l : List Char) : List Char :=
  match l with
  | [] => []
  | c :: t => if c = '-' then t else c :: t

/-- Remove one trailing hyphen, if present (the hyphen-dollar alternative of
the final regex of `safeSlug`). -/
def dropOneTrail (l : List Char) : List Char :=
  match l.getLast? with
  | some c => if c = '-' then l.dropLast else l
  | none => l

/-- `safeSlug` on the char list: trim, lowercase, collapse non-slug runs to
hyphens, collapse hyphen runs, strip one leading and one trailing hyphen. -/
def safeSlugList (l : List Char) : List Char :=
  dropOneTrail (dropOneLead (collapseDash (collapseBad
    (((jsTrimList l).map jsToLowerChars).flatten))))

/-- `safeSlug(s)` from both script variants. -/
def safeSlug (s : String) : String :=
  String.mk (safeSlugList s.data)

/-- `pad2(n)`: `String(n).padStart(2, '0')`. -/
def pad2 (n : Nat) : String :=
  let s := toString n
  if s.length ≥ 2 then s else String.mk (List.replicate (2 - s.length) '0') ++ s

/-! ## Prompt builder (richer variant, tailwind.config.cjs script) -/

def promptSeg1 : String :=
  "你是一名小学科学老师，为“六年级下册（教科版）”制作【孩子自己能读懂】的每课预习卡（用于纯静态网页）。\n\n请输出一篇 Markdown（不要代码块包裹），结构必须包含以下小标题（## 级别）：\n\n## 预习目标（3条，动词开头，短句）\n## 关键词小卡片（4-5个词，每个≤12字解释）\n## 预习问题（3题：2题理解 + 1题生活化）\n## 安全小实验/观察（1个，材料家里常见，步骤≤4步，含安全提示）\n## 趣味拓展（2条，每条≤25字，偏生活应用/科学史冷知识）\n## 练一练（3题：1道选择 + 2道简答；难度中等；**在题目下方立即给出答案与简要解析**）\n\n【图片要求】在练一练后面加一行：unsplash: 描述词（英文，1-3个关键词，用来找合适的免费图片，如 \"science experiment kids\"）\n\n【长度要求】除标题外，正文总字数尽量控制在约 300–420 字，句子短、节奏快、读起来像“闯关卡”。\n\n【安全与真实】不编造教材页码与权威引用；不包含危险化学品/明火/密闭容器产气等操作；强调在家可安全完成。\n\n本课信息：\n- 单元："

def promptSeg2 : String :=
  "\n- 课题："

def promptSeg3 : String :=
  "\n- 提示："

def promptSeg4 : String :=
  "\n\n最后加一行：打印版提示（1句话）。"

/-- The placeholder interpolated when the unit is missing or empty. -/
def unitMissing : String := "（未提供）"

/-- The placeholder interpolated when the summary hint is absent. -/
def hintMissing : String := "无"

/-- One outline entry, per the JSDoc type annotation in both scripts:
optional fields are `Option`; JS `order` is a number used only via
`String(n)`, modelled as `Nat`. -/
structure Entry where
  order : Nat
  title : String
  unit : Option String
  summaryHint : Option String
  keywords : Option (List String)
deriving DecidableEq

/-- The hint interpolation: `item.summaryHint ?? '\u65e0'` (nullish
coalescing: only `undefined`/`null` fall back, an empty string stays). -/
def hintStr (item : Entry) : String :=
  item.summaryHint.getD hintMissing

/-- The unit interpolation: `unit || '\uff08\u672a\u63d0\u4f9b\uff09'`
where `unit = item.unit ?? ''` (falsy empty string falls back). -/
def unitStr (item : Entry) : String :=
  if item.unit.getD "" = "" then unitMissing else item.unit.getD ""

/-- The prompt template literal of the richer variant, with its three
interpolations. -/
def buildPromptE (item : Entry) : String :=
  promptSeg1 ++ unitStr item ++ promptSeg2 ++ item.title ++ promptSeg3 ++ hintStr item ++ promptSeg4

/-! ## Front matter -/

/-- `replace(<quote>g, '\u201d')`: every double quote becomes the
typographic closing quote; all other characters pass through. -/
def escQ (s : String) : String :=
  String.mk (s.data.map (fun c => if c = '"' then '\u201d' else c))

/-- Characters `encodeURIComponent` leaves unescaped. -/
def isUriUnreserved (c : Char) : Bool :=
  (decide ('A' ≤ c) && decide (c ≤ 'Z')) ||
  (decide ('a' ≤ c) && decide (c ≤ 'z')) ||
  (decide ('0' ≤ c) && decide (c ≤ '9')) ||
  c = '-' || c = '_' || c = '.' || c = '!' || c = '~' || c = '*' ||
  c = '\'' || c = '(' || c = ')'

/-- Uppercase hex digit for a value below 16. -/
def hexChar (n : Nat) : Char :=
  if n < 10 then Char.ofNat (48 + n) else Char.ofNat (55 + n)

/-- The UTF-8 bytes of a Unicode scalar, as `Nat`s below 256. -/
def utf8Bytes (c : Char) : List Nat :=
  let n := c.toNat
  if n < 128 then [n]
  else if n < 2048 then [192 + n / 64, 128 + n % 64]
  else if n < 65536 then [224 + n / 4096, 128 + (n / 64) % 64, 128 + n % 64]
  else [240 + n / 262144, 128 + (n / 4096) % 64, 128 + (n / 64) % 64, 128 + n % 64]

/-- Percent-encoding of one byte. -/
def pctByte (b : Nat) : List Char :=
  ['%', hexChar (b / 16), hexChar (b % 16)]

/-- `encodeURIComponent`. -/
def encodeURIComponent (s : String) : String :=
  String.mk ((s.data.map (fun c =>
    if isUriUnreserved c then [c] else ((utf8Bytes c).map pctByte).flatten)).flatten)

/-- The `.filter(Boolean)` array pipeline that builds the front matter of the
richer variant, one `Option String` per array element (`undefined` entries
are `none`; note the trailing empty string element, which `Boolean`
filters out again). -/
def fmParts (title unit : String) (order : Nat) (keywords : Option (List String)) (kw : String) : List (Option String) :=
  [some "---",
   some ("title: \"" ++ escQ title ++ "\""),
   if unit = "" then none else some ("unit: \"" ++ escQ unit ++ "\""),
   some ("order: " ++ toString order),
   (match keywords with
    | some ks =>
      if ks.length = 0 then none
      else some ("keywords: [" ++ joinSep ", " (ks.map (fun k => "\"" ++ escQ k ++ "\"")) ++ "]")
    | none => none),
   if kw = "" then none
   else some ("image: \"https://source.unsplash.com/featured/?" ++ encodeURIComponent kw ++ "&sig=" ++ toString order ++ "\""),
   some "---",
   some ""]

/-- The front-matter lines after `.filter(Boolean)` (which drops both the
`undefined` entries and the final empty string). -/
def fmLinesOf (title unit : String) (order : Nat) (keywords : Option (List String)) (kw : String) : List String :=
  ((fmParts title unit order keywords kw).filterMap id).filter (fun s => !(s = ""))

/-- The front-matter string: the filtered lines joined with newlines. -/
def fmStringOf (title unit : String) (order : Nat) (keywords : Option (List String)) (kw : String) : String :=
  joinSep "\n" (fmLinesOf title unit order keywords kw)

/-- The YAML field name of a front-matter line: the characters before the
first colon. -/
def fieldLabel (s : String) : String :=
  String.mk (s.data.takeWhile (fun c => !(c = ':')))

/-- The sequence of field names emitted in the front matter, in order
(the `---` delimiter lines removed). -/
def fmFieldNames (title unit : String) (order : Nat) (keywords : Option (List String)) (kw : String) : List String :=
  ((fmLinesOf title unit order keywords kw).map fieldLabel).filter (fun s => !(s = "---"))

/-! ## Image-keyword extraction (richer variant)

`md.match(/unsplash:<ws*><nonNL+>/i)` and
`md.replace(/unsplash:<nonNL+><NL?>/i, '')`, translated with JS
leftmost-match backtracking semantics. -/

/-- The literal part of both regexes. -/
def unsplashLit : List Char := "unsplash:".data

/-- Case-insensitive ASCII prefix test: does `l` begin with the lowercase
pattern `p` up to `toLowerCase`? -/
def ciStartsWith : List Char → List Char → Bool
  | [], _ => true
  | _ :: _, [] => false
  | p :: ps, c :: cs => jsToLower c = p && ciStartsWith ps cs

/-- Attempt the `<ws*><nonNL+>` continuation at the text `l` that follows
the literal, returning the capture group on success.  The greedy whitespace
star backtracks just enough to leave at least one non-newline character for
the group. -/
def matchTail (l : List Char) : Option (List Char) :=
  let r := l.dropWhile isJsWs
  if r.isEmpty then
    match l.reverse.dropWhile (fun c => c = '\n') with
    | [] => none
    | c :: _ => some [c]
  else
    some (r.takeWhile (fun c => !(c = '\n')))

/-- Leftmost match of `/unsplash:<ws*>(<nonNL+>)/i`: the capture group at
the first position where the whole pattern succeeds. -/
def searchUnsplash : List Char → Option (List Char)
  | [] => none
  | c :: cs =>
    if ciStartsWith unsplashLit (c :: cs) then
      match matchTail ((c :: cs).drop 9) with
      | some g => some g
      | none => searchUnsplash cs
    else searchUnsplash cs

/-- Leftmost match of `/unsplash:<nonNL+><NL?>/i` removed from the text. -/
def removeUnsplash : List Char → List Char
  | [] => []
  | c :: cs =>
    if ciStartsWith unsplashLit (c :: cs) &&
       (match (c :: cs).drop 9 with | d :: _ => !(d = '\n') | [] => false) then
      match ((c :: cs).drop 9).dropWhile (fun d => !(d = '\n')) with
      | [] => []
      | _ :: tl => tl
    else c :: removeUnsplash cs

/-- A case-insensitive occurrence of the marker literal anywhere in the
text (used to state in which texts the two regexes can match at all). -/
def hasCIUnsplash : List Char → Bool
  | [] => false
  | c :: cs => ciStartsWith unsplashLit (c :: cs) || hasCIUnsplash cs

/-- The image-keyword step of `main`: on a match, the keyword is the trimmed
capture group and the matched fragment is removed from the body (which is
then trimmed); otherwise the keyword is empty and the body is untouched. -/
def extractImage (md : String) : String × String :=
  match searchUnsplash md.data with
  | some g => (jsTrimS (String.mk g), jsTrimS (String.mk (removeUnsplash md.data)))
  | none => ("", md)

/-! ## Completion client and per-entry processing -/

/-- One HTTP response from the chat-completion endpoint.  `content` models
`json.choices[0].message.content` when the success body parses as JSON and
that path holds a string; `none` otherwise. -/
structure HttpResponse where
  ok : Bool
  status : Nat
  statusText : String
  bodyText : String
  content : Option String

/-- The message of the error thrown by `postJson` on a non-success status:
`HTTP <status> <statusText>: <first 500 chars of body>`. -/
def httpErrMsg (r : HttpResponse) : String :=
  "HTTP " ++ toString r.status ++ " " ++ r.statusText ++ ": " ++ takeChars 500 r.bodyText

/-- `postJson`: non-success statuses throw; success yields the parsed
body. -/
def postJson (r : HttpResponse) : Except String (Option String) :=
  if r.ok then Except.ok r.content else Except.error (httpErrMsg r)

/-- The message thrown when the completion content is missing, not a
string, or empty. -/
def emptyContentMsg : String := "模型返回内容为空或格式不对"

/-- The `if (!md || typeof md !== 'string') throw` check of `main`. -/
def extractContent (j : Option String) : Except String String :=
  match j with
  | some md => if md = "" then Except.error emptyContentMsg else Except.ok md
  | none => Except.error emptyContentMsg

/-- The output filename:
`pad2(order) + '-' + (safeSlug(title).slice(0, 48) || 'lesson') + '.md'`. -/
def fileNameOf (item : Entry) : String :=
  pad2 item.order ++ "-" ++
    (let s := takeChars 48 (safeSlug item.title); if s = "" then "lesson" else s) ++ ".md"

/-- One generated Markdown file. -/
structure OutFile where
  name : String
  content : String
deriving DecidableEq

/-- The file written for an entry given the completion text `md`:
front matter, then the trimmed body, then a final newline (the empty string
in the front-matter array is removed by `.filter(Boolean)`, so no blank
line separates the closing `---` from the body). -/
def renderFile (item : Entry) (md : String) : OutFile :=
  let ex := extractImage md
  ⟨fileNameOf item,
   fmStringOf item.title (item.unit.getD "") item.order item.keywords ex.1 ++
     jsTrimS ex.2 ++ "\n"⟩

/-- The body of the driver loop for one entry: network call, content check,
file rendering.  The result is the file to write, or the thrown error. -/
def processEntry (item : Entry) (r : HttpResponse) : Except String OutFile :=
  match postJson r with
  | Except.error e => Except.error e
  | Except.ok j =>
    match extractContent j with
    | Except.error e => Except.error e
    | Except.ok md => Except.ok (renderFile item md)

/-! ## Driver loop

The loop awaits each entry to completion before touching the next; we
embed it as a recursion that emits an event trace: the issued network call
(carrying the request prompt) and the completed file write per entry. -/

/-- An observable side effect of the loop. -/
inductive Event where
  | net (idx : Nat) (prompt : String)
  | write (idx : Nat) (file : OutFile)
deriving DecidableEq

/-- The loop from entry index `i`: on an error the loop stops after the
failing entry's network call with the thrown error; otherwise the write
completes and the loop advances. -/
def runFrom (oracle : Nat → HttpResponse) : Nat → List Entry → List Event × Option String
  | _, [] => ([], none)
  | i, item :: rest =>
    match processEntry item (oracle i) with
    | Except.error e => ([Event.net i (buildPromptE item)], some e)
    | Except.ok f =>
      let r := runFrom oracle (i + 1) rest
      (Event.net i (buildPromptE item) :: Event.write i f :: r.1, r.2)

/-- `main` over a loaded outline, with the network abstracted as a map from
entry index to response. -/
def runMain (outline : List Entry) (oracle : Nat → HttpResponse) : List Event × Option String :=
  runFrom oracle 0 outline

/-- The process exit code: `main().catch` exits 1 on any error, else 0. -/
def exitCodeOf (r : List Event × Option String) : Nat :=
  match r.2 with
  | none => 0
  | some _ => 1

/-- The file a successful entry writes (dummy if the entry fails; used only
to state the canonical trace below). -/
def writtenFile (item : Entry) (r : HttpResponse) : OutFile :=
  match processEntry item r with
  | Except.ok f => f
  | Except.error _ => ⟨"", ""⟩

/-- The canonical strictly sequential trace of the first `k` entries
starting at index `i`: net call, then write, entry by entry. -/
def traceFrom (oracle : Nat → HttpResponse) : Nat → Nat → List Entry → List Event
  | _, 0, _ => []
  | _, _ + 1, [] => []
  | i, k + 1, item :: rest =>
    Event.net i (buildPromptE item) ::
      Event.write i (writtenFile item (oracle i)) :: traceFrom oracle (i + 1) k rest

/-! ## Key resolution (richer variant) -/

/-- A single or double quote, the class stripped from `.env.local`
values. -/
def isQuoteC (c : Char) : Bool := c = '\'' || c = '"'

/-- Strip one leading quote: the caret alternative of the strip regex. -/
def dropLeadQuote : List Char → List Char
  | [] => []
  | c :: t => if isQuoteC c then t else c :: t

/-- Strip one trailing quote: the dollar alternative of the strip regex. -/
def dropTrailQuote (l : List Char) : List Char :=
  match l.getLast? with
  | some c => if isQuoteC c then l.dropLast else l
  | none => l

/-- An ECMAScript line terminator: the characters the regex dot does not
match. -/
def isLineTerm (c : Char) : Bool :=
  c = '\n' || c = '\r' || c = '\u2028' || c = '\u2029'

/-- The capture group of `<ws*>(<dot+>)<ws*>$` applied to the text after the
equals sign, with JS dot semantics (the dot does not match line
terminators) and backtracking: the greedy leading star takes the maximal
whitespace run; the group then takes the maximal run of non-terminator
characters, and the match succeeds only if everything after that run is
whitespace (`$` has no multiline flag, so it only matches at the very
end).  When the text is all whitespace the star backtracks to the last
character the dot can match; if no character is matchable there is no
match (`none`). -/
def keyLineValue (rest : List Char) : Option (List Char) :=
  let r := rest.dropWhile isJsWs
  if r.isEmpty then
    match rest.reverse.dropWhile isLineTerm with
    | [] => none
    | c :: _ => some [c]
  else
    if (r.dropWhile (fun c => !isLineTerm c)).all isJsWs then
      some (r.takeWhile (fun c => !isLineTerm c))
    else none

/-- The literal variable name matched in `.env.local`. -/
def keyName : List Char := "DEEPSEEK_API_KEY".data

/-- One line of `.env.local` against
`/^<ws*>DEEPSEEK_API_KEY<ws*>=<ws*>(<dot+>)<ws*>$/`: on a match the
returned value is the capture group with one surrounding quote pair
stripped, then trimmed; a line the regex does not match (including a line
whose value part contains a stray carriage return followed by more text)
yields `none` and the scan moves on. -/
def parseEnvLine (line : List Char) : Option String :=
  let l1 := line.dropWhile isJsWs
  if startsWithList keyName l1 then
    match (l1.drop 16).dropWhile isJsWs with
    | '=' :: rest =>
      match keyLineValue rest with
      | some g => some (jsTrimS (String.mk (dropTrailQuote (dropLeadQuote g))))
      | none => none
    | _ => none
  else none

/-- Split on newline characters (JS `split` keeps empty pieces). -/
def splitOnNl : List Char → List (List Char)
  | [] => [[]]
  | c :: cs =>
    if c = '\n' then [] :: splitOnNl cs
    else
      match splitOnNl cs with
      | h :: t => (c :: h) :: t
      | [] => [[c]]

/-- Drop one trailing carriage return from a piece, so that splitting on
newline then stripping models `split(/<CR?><NL>/)`. -/
def stripCr (l : List Char) : List Char :=
  match l.getLast? with
  | some '\r' => l.dropLast
  | _ => l

/-- `raw.split(/<CR?><NL>/)`. -/
def splitLinesJs (s : String) : List (List Char) :=
  (splitOnNl s.data).map stripCr

/-- The first line with a key assignment wins (the inner `for` returns). -/
def firstEnvValue : List (List Char) → Option String
  | [] => none
  | line :: rest =>
    match parseEnvLine line with
    | some v => some v
    | none => firstEnvValue rest

/-- The `scripts/.deepseek_key` branch of the fallback loop: an unreadable
file (`none`) or a blank file is skipped, otherwise the trimmed content is
the key. -/
def tryKeyFile (content : Option String) : Option String :=
  match content with
  | none => none
  | some raw =>
    let t := jsTrimS raw
    if t = "" then none else some t

/-- The `.env.local` branch: an unreadable or blank file is skipped,
otherwise the file is scanned line by line. -/
def tryEnvLocal (content : Option String) : Option String :=
  match content with
  | none => none
  | some raw =>
    let t := jsTrimS raw
    if t = "" then none else firstEnvValue (splitLinesJs t)

/-- The ambient state `readKeyFallback` consults: the environment variable
and the two fallback files (`none` = absent or unreadable). -/
structure SysEnv where
  apiKeyEnv : Option String
  keyFileContent : Option String
  envLocalContent : Option String

/-- The file part of the fallback loop, in source order. -/
def readKeyFiles (sys : SysEnv) : String :=
  match tryKeyFile sys.keyFileContent with
  | some k => k
  | none =>
    match tryEnvLocal sys.envLocalContent with
    | some v => v
    | none => ""

/-- `readKeyFallback()`: the environment variable wins when truthy
(non-empty); otherwise the files are tried in order; the empty string
signals failure. -/
def readKeyFallback (sys : SysEnv) : String :=
  match sys.apiKeyEnv with
  | some k => if k = "" then readKeyFiles sys else k
  | none => readKeyFiles sys

/-- The startup diagnostic printed when no source yields a key. -/
def missingKeyMsg : String :=
  "缺少 DeepSeek API Key。请用以下任意一种方式提供：\n  1) 环境变量 DEEPSEEK_API_KEY（推荐）\n  2) 在 scripts/.deepseek_key 文件中放一行 key（不会提交）\n  3) 在 .env.local 中写 DEEPSEEK_API_KEY=...（不会提交）"

/-- The whole process: exit code, diagnostics printed to stderr, and the
event trace.  A missing key aborts with code 1 before `main` runs, so no
network event is ever emitted in that case. -/
def runProgram (sys : SysEnv) (outline : List Entry) (oracle : Nat → HttpResponse) : Nat × List String × List Event :=
  if readKeyFallback sys = "" then (1, [missingKeyMsg], [])
  else
    let r := runMain outline oracle
    (exitCodeOf r, [], r.1)

/-! ## Character-class facts used by the slug proofs -/

/-- A character that can appear in `safeSlug` output. -/
def slugOkChar (c : Char) : Bool := isSlugChar c || c = '-'

/-- No two adjacent hyphens. -/
def noDD : List Char → Bool
  | [] => true
  | [_] => true
  | a :: b :: t => !(a = '-' && b = '-') && noDD (b :: t)

lemma noDD_cons_cons (a b : Char) (t : List Char) :
    noDD (a :: b :: t) = (!(a = '-' && b = '-') && noDD (b :: t)) := rfl

lemma isSlugChar_eq_true {c : Char} :
    isSlugChar c = true ↔
      ('a' ≤ c ∧ c ≤ 'z') ∨ ('0' ≤ c ∧ c ≤ '9') ∨ ('一' ≤ c ∧ c ≤ '龥') := by
  simp [isSlugChar, or_assoc]

lemma isJsWs_eq_true {c : Char} :
    isJsWs c = true ↔
      (c = ' ' ∨ c = '\t' ∨ c = '\n' ∨ c = '\x0b' ∨ c = '\x0c' ∨ c = '\r' ∨
       c = ' ' ∨ c = ' ' ∨ (' ' ≤ c ∧ c ≤ ' ') ∨
       c = ' ' ∨ c = ' ' ∨ c = ' ' ∨ c = ' ' ∨
       c = '　' ∨ c = '﻿') := by
  simp [isJsWs, or_assoc]

lemma slugOk_cases {c : Char} (h : slugOkChar c = true) :
    (('a' ≤ c ∧ c ≤ 'z') ∨ ('0' ≤ c ∧ c ≤ '9') ∨ ('一' ≤ c ∧ c ≤ '龥')) ∨ c = '-' := by
  rcases (by simpa [slugOkChar] using h : isSlugChar c = true ∨ c = '-') with h | h
  · exact Or.inl (isSlugChar_eq_true.mp h)
  · exact Or.inr h

lemma isSlugChar_ne_dash {c : Char} (h : isSlugChar c = true) : c ≠ '-' := by
  rintro rfl
  exact absurd h (by decide)

lemma slugOk_not_ws {c : Char} (h : slugOkChar c = true) : isJsWs c = false := by
  by_contra hw
  rw [Bool.not_eq_false, isJsWs_eq_true] at hw
  rcases slugOk_cases h with (⟨h1, h2⟩ | ⟨h1, h2⟩ | ⟨h1, h2⟩) | rfl
  · rcases hw with rfl|rfl|rfl|rfl|rfl|rfl|rfl|rfl|⟨hw1,hw2⟩|rfl|rfl|rfl|rfl|rfl|rfl <;>
      first
        | exact absurd h1 (by decide)
        | exact absurd h2 (by decide)
        | exact absurd (le_trans hw1 h2) (by decide)
  · rcases hw with rfl|rfl|rfl|rfl|rfl|rfl|rfl|rfl|⟨hw1,hw2⟩|rfl|rfl|rfl|rfl|rfl|rfl <;>
      first
        | exact absurd h1 (by decide)
        | exact absurd h2 (by decide)
        | exact absurd (le_trans hw1 h2) (by decide)
  · rcases hw with rfl|rfl|rfl|rfl|rfl|rfl|rfl|rfl|⟨hw1,hw2⟩|rfl|rfl|rfl|rfl|rfl|rfl <;>
      first
        | exact absurd h1 (by decide)
        | exact absurd h2 (by decide)
        | exact absurd (le_trans h1 hw2) (by decide)
  · exact absurd hw (by decide)

lemma slugOk_toLower {c : Char} (h : slugOkChar c = true) : jsToLowerChars c = [c] := by
  have hk : c ≠ '\u212a' := by
    rintro rfl
    rcases slugOk_cases h with (⟨h1, h2⟩ | ⟨h1, h2⟩ | ⟨h1, h2⟩) | h0 <;>
      first
        | exact absurd h1 (by decide)
        | exact absurd h2 (by decide)
        | exact absurd h0 (by decide)
  have hi : c ≠ '\u0130' := by
    rintro rfl
    rcases slugOk_cases h with (⟨h1, h2⟩ | ⟨h1, h2⟩ | ⟨h1, h2⟩) | h0 <;>
      first
        | exact absurd h1 (by decide)
        | exact absurd h2 (by decide)
        | exact absurd h0 (by decide)
  unfold jsToLowerChars
  rw [if_neg, if_neg hk, if_neg hi]
  rintro ⟨hA, hZ⟩
  rcases slugOk_cases h with (⟨h1, h2⟩ | ⟨h1, h2⟩ | ⟨h1, h2⟩) | rfl
  · exact absurd (le_trans h1 hZ) (by decide)
  · exact absurd (le_trans hA h2) (by decide)
  · exact absurd (le_trans h1 hZ) (by decide)
  · exact absurd hA (by decide)

lemma flattenMap_id {f : Char → List Char} : ∀ {l : List Char},
    (∀ c ∈ l, f c = [c]) → (l.map f).flatten = l := by
  intro l h
  induction l with
  | nil => rfl
  | cons c t ih =>
    simp only [List.map_cons, List.flatten_cons, h c (by simp)]
    rw [ih (fun d hd => h d (by simp [hd]))]
    rfl

/-! ## Structural facts about the two collapse passes -/

lemma all_slugOk_cbAux : ∀ (l : List Char) (b : Bool),
    (collapseBadAux b l).all slugOkChar = true := by
  intro l
  induction l with
  | nil => intro b; rfl
  | cons c cs ih =>
    intro b
    by_cases hc : isSlugChar c = true
    · simp [collapseBadAux, hc, List.all_cons, slugOkChar, ih]
    · cases b with
      | true => simpa [collapseBadAux, hc] using ih true
      | false => simp [collapseBadAux, hc, List.all_cons, slugOkChar, ih]

lemma cbAux_true_head : ∀ (l : List Char), (collapseBadAux true l).head? ≠ some '-' := by
  intro l
  induction l with
  | nil => simp [collapseBadAux]
  | cons c cs ih =>
    by_cases hc : isSlugChar c = true
    · simpa [collapseBadAux, hc] using isSlugChar_ne_dash hc
    · simpa [collapseBadAux, hc] using ih

lemma noDD_cons_ne {x : Char} {ys : List Char} (hx : x ≠ '-') (h : noDD ys = true) :
    noDD (x :: ys) = true := by
  cases ys with
  | nil => rfl
  | cons y t => simp [noDD, hx, h]

lemma noDD_cons_dash {ys : List Char} (hh : ys.head? ≠ some '-') (h : noDD ys = true) :
    noDD ('-' :: ys) = true := by
  cases ys with
  | nil => rfl
  | cons y t =>
    have hy : y ≠ '-' := by
      intro rfl0
      exact hh (by simp [rfl0])
    simp [noDD, hy, h]

lemma noDD_tail {c : Char} {cs : List Char} (h : noDD (c :: cs) = true) : noDD cs = true := by
  cases cs with
  | nil => rfl
  | cons b t =>
    rw [noDD_cons_cons, Bool.and_eq_true] at h
    exact h.2

lemma noDD_cons_head {cs : List Char} (h : noDD ('-' :: cs) = true) : cs.head? ≠ some '-' := by
  cases cs with
  | nil => simp
  | cons y t =>
    rw [noDD_cons_cons, Bool.and_eq_true] at h
    simp only [List.head?_cons, Option.some.injEq]
    intro hy
    obtain rfl : y = '-' := Option.some.inj hy
    simpa using h.1

lemma noDD_cbAux : ∀ (l : List Char) (b : Bool), noDD (collapseBadAux b l) = true := by
  intro l
  induction l with
  | nil => intro b; rfl
  | cons c cs ih =>
    intro b
    by_cases hc : isSlugChar c = true
    · simpa [collapseBadAux, hc] using noDD_cons_ne (isSlugChar_ne_dash hc) (ih false)
    · cases b with
      | true => simpa [collapseBadAux, hc] using ih true
      | false =>
        simpa [collapseBadAux, hc] using noDD_cons_dash (cbAux_true_head cs) (ih true)

lemma cb_id : ∀ (l : List Char), l.all slugOkChar = true → noDD l = true →
    collapseBadAux false l = l ∧ (l.head? ≠ some '-' → collapseBadAux true l = l) := by
  intro l
  induction l with
  | nil => exact fun _ _ => ⟨rfl, fun _ => rfl⟩
  | cons c cs ih =>
    intro hall hdd
    have hallc : slugOkChar c = true ∧ cs.all slugOkChar = true := by
      simpa [List.all_cons, Bool.and_eq_true] using hall
    have ihr := ih hallc.2 (noDD_tail hdd)
    by_cases hc : isSlugChar c = true
    · constructor
      · simp [collapseBadAux, hc, ihr.1]
      · intro _
        simp [collapseBadAux, hc, ihr.1]
    · have hdash : c = '-' := by
        rcases (by simpa [slugOkChar] using hallc.1 : isSlugChar c = true ∨ c = '-') with h | h
        · exact absurd h hc
        · exact h
      subst hdash
      constructor
      · have htail := ihr.2 (noDD_cons_head hdd)
        simp [collapseBadAux, hc, htail]
      · intro habs
        simp at habs

lemma cd_id : ∀ (l : List Char), noDD l = true →
    collapseDashAux false l = l ∧ (l.head? ≠ some '-' → collapseDashAux true l = l) := by
  intro l
  induction l with
  | nil => exact fun _ => ⟨rfl, fun _ => rfl⟩
  | cons c cs ih =>
    intro hdd
    have ihr := ih (noDD_tail hdd)
    by_cases hc : c = '-'
    · subst hc
      constructor
      · have htail := ihr.2 (noDD_cons_head hdd)
        simp [collapseDashAux, htail]
      · intro habs
        simp at habs
    · constructor
      · simp [collapseDashAux, hc, ihr.1]
      · intro _
        simp [collapseDashAux, hc, ihr.1]

lemma noDD_append_left : ∀ (l r : List Char), noDD (l ++ r) = true → noDD l = true := by
  intro l r
  induction l with
  | nil => intro _; rfl
  | cons a t ih =>
    cases t with
    | nil => intro _; rfl
    | cons b t2 =>
      intro h
      rw [List.cons_append, List.cons_append, noDD_cons_cons, Bool.and_eq_true] at h
      rw [noDD_cons_cons, Bool.and_eq_true]
      exact ⟨h.1, ih (by simpa using h.2)⟩

lemma noDD_dropLast {l : List Char} (h : noDD l = true) : noDD l.dropLast = true := by
  by_cases hl : l = []
  · subst hl; rfl
  · have hsplit := List.dropLast_append_getLast hl
    rw [← hsplit] at h
    exact noDD_append_left _ _ h

lemma getLast_dropLast_ne_dash : ∀ (l : List Char), noDD l = true →
    l.getLast? = some '-' → l.dropLast.getLast? ≠ some '-' := by
  intro l
  induction l with
  | nil => intro _ h; simp at h
  | cons a t ih =>
    cases t with
    | nil =>
      intro _ _
      simp
    | cons b t2 =>
      intro hdd hlast
      have hdd2 : (!(a = '-' && b = '-')) = true ∧ noDD (b :: t2) = true := by
        rw [noDD_cons_cons, Bool.and_eq_true] at hdd
        exact hdd
      cases t2 with
      | nil =>
        have hb : b = '-' := by simpa using hlast
        subst hb
        have ha : a ≠ '-' := by
          intro rfl0
          rw [rfl0] at hdd2
          simpa using hdd2.1
        simpa using ha
      | cons c t3 =>
        have hlast2 : (b :: c :: t3).getLast? = some '-' := by
          simpa [List.getLast?_cons_cons] using hlast
        have := ih hdd2.2 hlast2
        simpa [List.getLast?_cons_cons] using this

lemma dropOneLead_id {l : List Char} (h : l.head? ≠ some '-') : dropOneLead l = l := by
  cases l with
  | nil => rfl
  | cons c t =>
    have hc : c ≠ '-' := by
      intro rfl0
      exact h (by simp [rfl0])
    simp [dropOneLead, hc]

lemma dropOneTrail_none {w : List Char} (h : w.getLast? = none) : dropOneTrail w = w := by
  unfold dropOneTrail
  rw [h]

lemma dropOneTrail_eq_dropLast {w : List Char} (h : w.getLast? = some '-') :
    dropOneTrail w = w.dropLast := by
  unfold dropOneTrail
  rw [h]
  simp

lemma dropOneTrail_eq_self {w : List Char} {d : Char} (h : w.getLast? = some d)
    (hd : d ≠ '-') : dropOneTrail w = w := by
  unfold dropOneTrail
  rw [h]
  simp [hd]

lemma dropOneTrail_id {l : List Char} (h : l.getLast? ≠ some '-') : dropOneTrail l = l := by
  unfold dropOneTrail
  cases hl : l.getLast? with
  | none => rfl
  | some c =>
    have hc : c ≠ '-' := by
      intro rfl0
      rw [rfl0] at hl
      exact h hl
    simp [hc]

lemma dropWhile_all_false {p : Char → Bool} : ∀ {l : List Char},
    (∀ c ∈ l, p c = false) → l.dropWhile p = l := by
  intro l h
  cases l with
  | nil => rfl
  | cons c t =>
    have := h c (by simp)
    simp [List.dropWhile_cons, this]

lemma jsTrimList_id {l : List Char} (h : ∀ c ∈ l, isJsWs c = false) : jsTrimList l = l := by
  unfold jsTrimList
  rw [dropWhile_all_false h]
  rw [dropWhile_all_false (fun c hc => h c (List.mem_reverse.mp hc))]
  exact List.reverse_reverse l

lemma map_id_mem {f : Char → Char} : ∀ {l : List Char},
    (∀ c ∈ l, f c = c) → l.map f = l := by
  intro l h
  have := List.map_congr_left (g := id) h
  simpa using this

lemma dropOneLead_all {w : List Char} (h : w.all slugOkChar = true) :
    (dropOneLead w).all slugOkChar = true := by
  cases w with
  | nil => rfl
  | cons d t =>
    rw [List.all_cons, Bool.and_eq_true] at h
    by_cases hd : d = '-'
    · simpa [dropOneLead, hd] using h.2
    · simpa [dropOneLead, hd, List.all_cons, Bool.and_eq_true] using h

lemma dropOneLead_noDD {w : List Char} (h : noDD w = true) : noDD (dropOneLead w) = true := by
  cases w with
  | nil => rfl
  | cons d t =>
    by_cases hd : d = '-'
    · simpa [dropOneLead, hd] using noDD_tail h
    · simpa [dropOneLead, hd] using h

lemma dropOneLead_head {w : List Char} (h : noDD w = true) :
    (dropOneLead w).head? ≠ some '-' := by
  cases w with
  | nil => simp [dropOneLead]
  | cons d t =>
    by_cases hd : d = '-'
    · subst hd
      simpa [dropOneLead] using noDD_cons_head h
    · simp [dropOneLead, hd]

lemma dropOneTrail_all {w : List Char} (h : w.all slugOkChar = true) :
    (dropOneTrail w).all slugOkChar = true := by
  cases hgl : w.getLast? with
  | none =>
    rw [dropOneTrail_none hgl]
    exact h
  | some d =>
    by_cases hd : d = '-'
    · subst hd
      rw [dropOneTrail_eq_dropLast hgl]
      refine List.all_eq_true.mpr ?_
      intro c hc
      exact List.all_eq_true.mp h c ((List.dropLast_sublist w).mem hc)
    · rw [dropOneTrail_eq_self hgl hd]
      exact h

lemma dropOneTrail_noDD {w : List Char} (h : noDD w = true) :
    noDD (dropOneTrail w) = true := by
  cases hgl : w.getLast? with
  | none =>
    rw [dropOneTrail_none hgl]
    exact h
  | some d =>
    by_cases hd : d = '-'
    · subst hd
      rw [dropOneTrail_eq_dropLast hgl]
      exact noDD_dropLast h
    · rw [dropOneTrail_eq_self hgl hd]
      exact h

lemma dropOneTrail_head {w : List Char} (h : w.head? ≠ some '-') :
    (dropOneTrail w).head? ≠ some '-' := by
  cases hgl : w.getLast? with
  | none =>
    rw [dropOneTrail_none hgl]
    exact h
  | some d =>
    by_cases hd : d = '-'
    · subst hd
      rw [dropOneTrail_eq_dropLast hgl]
      cases w with
      | nil => simp
      | cons a t =>
        cases t with
        | nil => simp
        | cons b t2 => simp [List.dropLast_cons₂] at h ⊢; exact h
    · rw [dropOneTrail_eq_self hgl hd]
      exact h

lemma dropOneTrail_last {w : List Char} (h : noDD w = true) :
    (dropOneTrail w).getLast? ≠ some '-' := by
  cases hgl : w.getLast? with
  | none =>
    rw [dropOneTrail_none hgl, hgl]
    simp
  | some d =>
    by_cases hd : d = '-'
    · subst hd
      rw [dropOneTrail_eq_dropLast hgl]
      exact getLast_dropLast_ne_dash w h hgl
    · rw [dropOneTrail_eq_self hgl hd, hgl]
      simp [hd]

/-- Every character of `safeSlug` output is a slug character or a hyphen;
no two hyphens are adjacent; no leading or trailing hyphen. -/
lemma safeSlugList_invariant (x : List Char) :
    (safeSlugList x).all slugOkChar = true ∧ noDD (safeSlugList x) = true ∧
      (safeSlugList x).head? ≠ some '-' ∧ (safeSlugList x).getLast? ≠ some '-' := by
  have hy_all : (collapseBad (((jsTrimList x).map jsToLowerChars).flatten)).all slugOkChar = true :=
    all_slugOk_cbAux _ false
  have hy_dd : noDD (collapseBad (((jsTrimList x).map jsToLowerChars).flatten)) = true :=
    noDD_cbAux _ false
  have hz : safeSlugList x =
      dropOneTrail (dropOneLead (collapseBad (((jsTrimList x).map jsToLowerChars).flatten))) := by
    unfold safeSlugList
    rw [show collapseDash (collapseBad (((jsTrimList x).map jsToLowerChars).flatten)) =
        collapseBad (((jsTrimList x).map jsToLowerChars).flatten) from
      (cd_id _ hy_dd).1]
  rw [hz]
  refine ⟨dropOneTrail_all (dropOneLead_all hy_all),
          dropOneTrail_noDD (dropOneLead_noDD hy_dd),
          dropOneTrail_head (dropOneLead_head hy_dd),
          dropOneTrail_last (dropOneLead_noDD hy_dd)⟩

/-- The slug pipeline fixes any list satisfying the output invariant. -/
lemma safeSlugList_fixed {z : List Char} (hall : z.all slugOkChar = true)
    (hdd : noDD z = true) (hh : z.head? ≠ some '-') (hl : z.getLast? ≠ some '-') :
    safeSlugList z = z := by
  have hmem : ∀ c ∈ z, slugOkChar c = true := List.all_eq_true.mp hall
  unfold safeSlugList
  rw [jsTrimList_id (fun c hc => slugOk_not_ws (hmem c hc)),
      flattenMap_id (fun c hc => slugOk_toLower (hmem c hc)),
      show collapseBad z = z from (cb_id _ hall hdd).1,
      show collapseDash z = z from (cd_id _ hdd).1,
      dropOneLead_id hh, dropOneTrail_id hl]

/-- Applying the slug pipeline to its own output changes nothing. -/
lemma safeSlugList_idem (x : List Char) : safeSlugList (safeSlugList x) = safeSlugList x := by
  obtain ⟨hall, hdd, hh, hl⟩ := safeSlugList_invariant x
  exact safeSlugList_fixed hall hdd hh hl

/-! ## Additional character classes named by the specification -/

/-- ASCII alphanumeric, either case. -/
def isAsciiAlnum (c : Char) : Bool :=
  (decide ('A' ≤ c) && decide (c ≤ 'Z')) ||
  (decide ('a' ≤ c) && decide (c ≤ 'z')) ||
  (decide ('0' ≤ c) && decide (c ≤ '9'))

/-- CJK ideograph in the range kept by `safeSlug`. -/
def isCJKChar (c : Char) : Bool :=
  decide ('一' ≤ c) && decide (c ≤ '龥')

lemma jsToLowerChars_fixed_of_bad {c : Char} (h1 : isAsciiAlnum c = false)
    (hk : c ≠ '\u212a') (hi : c ≠ '\u0130') : jsToLowerChars c = [c] := by
  unfold jsToLowerChars
  rw [if_neg, if_neg hk, if_neg hi]
  rintro ⟨hA, hZ⟩
  have : isAsciiAlnum c = true := by
    simp only [isAsciiAlnum, Bool.or_eq_true, Bool.and_eq_true, decide_eq_true_eq]
    exact Or.inl (Or.inl ⟨hA, hZ⟩)
  rw [h1] at this
  cases this

lemma isSlugChar_false_of_bad {c : Char} (h1 : isAsciiAlnum c = false)
    (h2 : isCJKChar c = false) : isSlugChar c = false := by
  by_contra h
  rw [Bool.not_eq_false] at h
  rcases isSlugChar_eq_true.mp h with ⟨ha, hb⟩ | ⟨ha, hb⟩ | ⟨ha, hb⟩
  · have : isAsciiAlnum c = true := by
      simp only [isAsciiAlnum, Bool.or_eq_true, Bool.and_eq_true, decide_eq_true_eq]
      exact Or.inl (Or.inr ⟨ha, hb⟩)
    rw [h1] at this
    cases this
  · have : isAsciiAlnum c = true := by
      simp only [isAsciiAlnum, Bool.or_eq_true, Bool.and_eq_true, decide_eq_true_eq]
      exact Or.inr ⟨ha, hb⟩
    rw [h1] at this
    cases this
  · have : isCJKChar c = true := by
      simp only [isCJKChar, Bool.and_eq_true, decide_eq_true_eq]
      exact ⟨ha, hb⟩
    rw [h2] at this
    cases this

lemma mem_jsTrimList {c : Char} {l : List Char} (h : c ∈ jsTrimList l) : c ∈ l := by
  unfold jsTrimList at h
  rw [List.mem_reverse] at h
  have h2 := (List.dropWhile_suffix (l := (l.dropWhile isJsWs).reverse) isJsWs).sublist.mem h
  rw [List.mem_reverse] at h2
  exact (List.dropWhile_suffix (l := l) isJsWs).sublist.mem h2

lemma cbAux_all_bad : ∀ (l : List Char), (∀ c ∈ l, isSlugChar c = false) →
    collapseBadAux true l = [] ∧
      collapseBadAux false l = (if l.isEmpty then [] else ['-']) := by
  intro l
  induction l with
  | nil => exact fun _ => ⟨rfl, rfl⟩
  | cons c cs ih =>
    intro h
    have hc := h c (by simp)
    have ihr := ih (fun d hd => h d (List.mem_cons_of_mem _ hd))
    constructor
    · simp [collapseBadAux, hc, ihr.1]
    · simp [collapseBadAux, hc, ihr.1]

/-- A title whose characters are neither ASCII alphanumerics nor CJK
ideographs, and avoid the two characters whose lowercase contains an ASCII
letter, slugifies to the empty string. -/
lemma safeSlugList_all_bad {l : List Char}
    (h : ∀ c ∈ l, isAsciiAlnum c = false ∧ isCJKChar c = false ∧
      c ≠ '\u212a' ∧ c ≠ '\u0130') :
    safeSlugList l = [] := by
  have hflat : ((jsTrimList l).map jsToLowerChars).flatten = jsTrimList l := by
    apply flattenMap_id
    intro c hc
    have hcl := h c (mem_jsTrimList hc)
    exact jsToLowerChars_fixed_of_bad hcl.1 hcl.2.2.1 hcl.2.2.2
  have hbad : ∀ c ∈ jsTrimList l, isSlugChar c = false := by
    intro c hc
    have hcl := h c (mem_jsTrimList hc)
    exact isSlugChar_false_of_bad hcl.1 hcl.2.1
  have hcb := (cbAux_all_bad _ hbad).2
  unfold safeSlugList
  unfold collapseBad
  rw [hflat, hcb]
  by_cases hemp : (jsTrimList l).isEmpty
  · rw [if_pos hemp]
    rfl
  · rw [if_neg hemp]
    rfl

/-! ## Claim theorems: slugs and filenames -/

/-- C5: the slug derivation is idempotent: for every input string `s`,
`safeSlug (safeSlug s) = safeSlug s`. -/
theorem safeSlug_idempotent (s : String) : safeSlug (safeSlug s) = safeSlug s := by
  unfold safeSlug
  show String.mk (safeSlugList (safeSlugList s.data)) = String.mk (safeSlugList s.data)
  exact congrArg String.mk (safeSlugList_idem s.data)

/-- C6 counterexample to the claim as stated: U+212A KELVIN SIGN is
neither an ASCII alphanumeric nor a CJK ideograph, but `toLowerCase` maps
it to the ASCII letter `k`, so the slug is `k`, not empty, and the written
filename is `07-k.md`, not the `lesson` fallback (U+0130 similarly
lowercases to `i` plus a combining dot and yields `08-i.md`). -/
theorem filename_fallback_counterexample :
    (isAsciiAlnum '\u212a' = false ∧ isCJKChar '\u212a' = false) ∧
    safeSlug "\u212a" = "k" ∧
    fileNameOf ⟨7, "\u212a", none, none, none⟩ = "07-k.md" ∧
    "07-k.md" ≠ "07-lesson.md" ∧
    (isAsciiAlnum '\u0130' = false ∧ isCJKChar '\u0130' = false) ∧
    fileNameOf ⟨8, "\u0130", none, none, none⟩ = "08-i.md" := by
  decide

/-- C6 (amended): when every character of the title is neither an ASCII
alphanumeric nor a CJK ideograph, and is also neither U+212A KELVIN SIGN
nor U+0130 LATIN CAPITAL LETTER I WITH DOT ABOVE (the two characters whose
Unicode lowercase contains an ASCII letter), the slug is empty, the fixed
placeholder `lesson` is used instead, and the filename is the two-digit
zero-padded order, a hyphen, `lesson`, and the `.md` extension. -/
theorem filename_fallback_of_symbolic_title (item : Entry)
    (h : ∀ c ∈ item.title.data, isAsciiAlnum c = false ∧ isCJKChar c = false ∧
      c ≠ '\u212a' ∧ c ≠ '\u0130') :
    safeSlug item.title = "" ∧ fileNameOf item = pad2 item.order ++ "-lesson.md" := by
  have hslug : safeSlug item.title = "" := by
    unfold safeSlug
    rw [safeSlugList_all_bad h]
  refine ⟨hslug, ?_⟩
  unfold fileNameOf
  rw [hslug]
  show pad2 item.order ++ "-" ++ (if takeChars 48 "" = "" then "lesson" else takeChars 48 "") ++ ".md" =
    pad2 item.order ++ "-lesson.md"
  rw [if_pos (by rfl)]
  rw [String.append_assoc, String.append_assoc]
  rfl

/-- C6 witness at a concrete symbolic title. -/
theorem filename_fallback_witness :
    (∀ c ∈ ("!!! ***" : String).data, isAsciiAlnum c = false ∧ isCJKChar c = false ∧
      c ≠ '\u212a' ∧ c ≠ '\u0130') ∧
      fileNameOf ⟨7, "!!! ***", none, none, none⟩ = "07-lesson.md" := by
  refine ⟨by decide, ?_⟩
  have h := filename_fallback_of_symbolic_title ⟨7, "!!! ***", none, none, none⟩ (by decide)
  rw [h.2]
  rfl

/-! ## Claim theorem: unit icons -/

/-- C10 counterexample to the claim as stated: `toString` is not a key of
the `UNIT_ICONS` table, yet `UNIT_ICONS["toString"]` finds the inherited
`Object.prototype.toString` function through the prototype chain; that
value is not nullish, so the coalescing fallback never fires and the
function, not the book icon, is returned. -/
theorem unitIcon_counterexample :
    (∀ p ∈ UNIT_ICONS, p.1 ≠ "toString") ∧
    unitIcon (some "toString") = JsValue.inherited "toString" ∧
    unitIcon (some "toString") ≠ JsValue.str bookIcon := by
  decide

/-- C10 (amended): `unitIcon` is total and never returns `undefined`: a
missing or empty unit yields the book icon; a unit that is neither a key
of `UNIT_ICONS` nor the name of a property inherited from
`Object.prototype` yields the book icon; every key of the table yields
that key's icon; and a non-key that names an inherited property yields
that inherited non-string value rather than the default. -/
theorem unitIcon_total :
    unitIcon none = JsValue.str bookIcon ∧
    unitIcon (some "") = JsValue.str bookIcon ∧
    (∀ s : String, (∀ p ∈ UNIT_ICONS, p.1 ≠ s) → s ∉ objectProtoProps →
      unitIcon (some s) = JsValue.str bookIcon) ∧
    (∀ p ∈ UNIT_ICONS, unitIcon (some p.1) = JsValue.str p.2) ∧
    (∀ s : String, s ≠ "" → (∀ p ∈ UNIT_ICONS, p.1 ≠ s) → s ∈ objectProtoProps →
      unitIcon (some s) = JsValue.inherited s) := by
  have hfind : ∀ s : String, (∀ p ∈ UNIT_ICONS, p.1 ≠ s) →
      UNIT_ICONS.find? (fun p => p.1 = s) = none := by
    intro s h
    rw [List.find?_eq_none]
    intro p hp
    simpa using h p hp
  refine ⟨rfl, rfl, ?_, ?_, ?_⟩
  · intro s h hproto
    show (if s = "" then JsValue.str bookIcon
          else match (UNIT_ICONS.find? (fun p => p.1 = s)) with
               | some p => JsValue.str p.2
               | none =>
                 if s ∈ objectProtoProps then JsValue.inherited s
                 else JsValue.str bookIcon) = JsValue.str bookIcon
    by_cases hs : s = ""
    · rw [if_pos hs]
    · rw [if_neg hs, hfind s h, if_neg hproto]
  · intro p hp
    fin_cases hp <;> rfl
  · intro s hs h hproto
    show (if s = "" then JsValue.str bookIcon
          else match (UNIT_ICONS.find? (fun p => p.1 = s)) with
               | some p => JsValue.str p.2
               | none =>
                 if s ∈ objectProtoProps then JsValue.inherited s
                 else JsValue.str bookIcon) = JsValue.inherited s
    rw [if_neg hs, hfind s h, if_pos hproto]

/-- C10 witness: an unknown non-inherited unit falls back to the book
icon, a known key maps to its icon, and an inherited property name yields
the inherited value. -/
theorem unitIcon_total_witness :
    (∀ p ∈ UNIT_ICONS, p.1 ≠ "oceans") ∧ "oceans" ∉ objectProtoProps ∧
      unitIcon (some "oceans") = JsValue.str bookIcon ∧
      unitIcon (some unitKey1) = JsValue.str unitIconVal1 ∧
      unitIcon (some "valueOf") = JsValue.inherited "valueOf" := by
  refine ⟨by decide, by decide, unitIcon_total.2.2.1 "oceans" (by decide) (by decide),
    ?_, unitIcon_total.2.2.2.2 "valueOf" (by decide) (by decide) (by decide)⟩
  exact unitIcon_total.2.2.2.1 (unitKey1, unitIconVal1) (by simp [UNIT_ICONS])

/-! ## Front-matter line facts -/

lemma ne_nil_concat {a : List Char} (b : List Char) (h : a ≠ []) : a ++ b ≠ [] :=
  fun he => h (List.append_eq_nil.mp he).1

lemma ne_empty_left {a : String} (b : String) (h : a.data ≠ []) : a ++ b ≠ "" := by
  intro he
  have h2 : a.data ++ b.data = [] := by
    have h3 := congrArg String.data he
    rwa [String.data_append] at h3
  exact h (List.append_eq_nil.mp h2).1

lemma quoted_line_ne_empty (pre : String) (hpre : pre.data ≠ []) (y suf : String) :
    pre ++ y ++ suf ≠ "" := by
  apply ne_empty_left
  rw [String.data_append]
  exact ne_nil_concat _ hpre

lemma order_line_ne_empty (n : Nat) : ("order: " ++ toString n) ≠ "" :=
  ne_empty_left _ (by decide)

lemma image_line_ne_empty (y : String) (n : Nat) :
    ("image: \"https://source.unsplash.com/featured/?" ++ y ++ "&sig=" ++ toString n ++ "\"") ≠ "" := by
  apply ne_empty_left
  rw [String.data_append, String.data_append, String.data_append]
  exact ne_nil_concat _ (ne_nil_concat _ (ne_nil_concat _ (by decide)))

lemma fieldLabel_dashes : fieldLabel "---" = "---" := rfl

lemma fieldLabel_title (y : String) : fieldLabel ("title: \"" ++ y ++ "\"") = "title" := rfl

lemma fieldLabel_unit (y : String) : fieldLabel ("unit: \"" ++ y ++ "\"") = "unit" := rfl

lemma fieldLabel_order (n : Nat) : fieldLabel ("order: " ++ toString n) = "order" := rfl

lemma fieldLabel_keywords (y : String) :
    fieldLabel ("keywords: [" ++ y ++ "]") = "keywords" := rfl

lemma fieldLabel_image (y : String) (n : Nat) :
    fieldLabel ("image: \"https://source.unsplash.com/featured/?" ++ y ++ "&sig=" ++ toString n ++ "\"") = "image" := rfl

/-! ## Claim theorem: front-matter field order -/

/-- C4: for every entry and every combination of optional fields, the
emitted front matter lists exactly the fields title, unit (only when the
unit is non-empty), order, keywords (only when the keyword list is present
and non-empty), image (only when an image keyword was extracted), in that
order and nothing else. -/
theorem fm_field_order (title unit : String) (order : Nat)
    (keywords : Option (List String)) (kw : String) :
    fmFieldNames title unit order keywords kw =
      ["title"] ++ (if unit = "" then [] else ["unit"]) ++ ["order"] ++
        (match keywords with
         | some ks => if ks.length = 0 then [] else ["keywords"]
         | none => []) ++
        (if kw = "" then [] else ["image"]) := by
  have h1 := quoted_line_ne_empty "title: \"" (by decide) (escQ title) "\""
  have h2 := quoted_line_ne_empty "unit: \"" (by decide) (escQ unit) "\""
  have h3 := order_line_ne_empty order
  have h5 := image_line_ne_empty (encodeURIComponent kw) order
  cases keywords with
  | none =>
    by_cases hu : unit = "" <;> by_cases hk : kw = "" <;>
      simp [fmFieldNames, fmLinesOf, fmParts, hu, hk, h1, h2, h3, h5, fieldLabel_dashes,
            fieldLabel_title, fieldLabel_unit, fieldLabel_order, fieldLabel_image]
  | some ks =>
    have h4 := quoted_line_ne_empty "keywords: ["
      (by decide) (joinSep ", " (ks.map (fun k => "\"" ++ escQ k ++ "\""))) "]"
    by_cases hl : ks.length = 0 <;> by_cases hu : unit = "" <;> by_cases hk : kw = "" <;>
      simp [fmFieldNames, fmLinesOf, fmParts, hu, hk, hl, h1, h2, h3, h4, h5,
            fieldLabel_dashes, fieldLabel_title, fieldLabel_unit, fieldLabel_order,
            fieldLabel_keywords, fieldLabel_image]

/-! ## Claim theorem: quote escaping in string fields -/

/-- C7: in every emitted front-matter string field the source value has
each double quote replaced by the typographic closing quote and no other
character changed (same length, pointwise identity off quotes, no double
quote remains), and each field is rendered as the transformed value wrapped
in literal double quotes. -/
theorem fm_quote_escaping (t u : String) (o : Nat) (ks : Option (List String))
    (kw : String) (s : String) :
    ((escQ s).data.length = s.data.length ∧
     (∀ i : Nat, (escQ s).data[i]? = (s.data[i]?).map (fun c => if c = '"' then '”' else c)) ∧
     '"' ∉ (escQ s).data) ∧
    (fmParts t u o ks kw)[1]? = some (some ("title: \"" ++ escQ t ++ "\"")) ∧
    (u ≠ "" → (fmParts t u o ks kw)[2]? = some (some ("unit: \"" ++ escQ u ++ "\""))) ∧
    (∀ l, ks = some l → l ≠ [] →
      (fmParts t u o ks kw)[4]? =
        some (some ("keywords: [" ++
          joinSep ", " (l.map (fun k => "\"" ++ escQ k ++ "\"")) ++ "]"))) := by
  refine ⟨⟨?_, ?_, ?_⟩, rfl, ?_, ?_⟩
  · simp [escQ]
  · intro i
    simp [escQ, List.getElem?_map]
  · intro hmem
    have := List.mem_map.mp (by simpa [escQ] using hmem)
    rcases this with ⟨a, _, heq⟩
    by_cases ha : a = '"'
    · rw [if_pos ha] at heq
      exact absurd heq (by decide)
    · rw [if_neg ha] at heq
      exact ha heq
  · intro hu
    show some (if u = "" then none else some ("unit: \"" ++ escQ u ++ "\"")) = _
    rw [if_neg hu]
  · intro l hl hne
    subst hl
    show some (if l.length = 0 then none
               else some ("keywords: [" ++
                 joinSep ", " (l.map (fun k => "\"" ++ escQ k ++ "\"")) ++ "]")) = _
    rw [if_neg (by simpa using hne)]

/-- C7 witness at concrete quoted values. -/
theorem fm_quote_escaping_witness :
    escQ "a\"b" = "a”b" ∧
    (fmParts "t" "u\"2" 5 (some ["k\"3"]) "")[2]? = some (some "unit: \"u”2\"") ∧
    (fmParts "t" "u\"2" 5 (some ["k\"3"]) "")[4]? = some (some "keywords: [\"k”3\"]") := by
  have h := fm_quote_escaping "t" "u\"2" 5 (some ["k\"3"]) "" "a\"b"
  refine ⟨by decide, ?_, ?_⟩
  · rw [h.2.2.1 (by decide)]
    rfl
  · rw [h.2.2.2 ["k\"3"] rfl (by decide)]
    rfl

/-! ## Claim theorem: prompt placeholders -/

/-- C8: for an entry whose unit is absent or empty the rendered prompt
carries the `（未提供）` placeholder in the unit slot, and for an entry
whose summary hint is absent the hint slot carries `无`.  The prompt
builder is a pure function of the entry (it is a Lean function of the
entry alone), hence deterministic and free of I/O. -/
theorem prompt_placeholders (item : Entry) :
    (item.unit = none ∨ item.unit = some "" →
      buildPromptE item =
        promptSeg1 ++ unitMissing ++ promptSeg2 ++ item.title ++ promptSeg3 ++
          hintStr item ++ promptSeg4) ∧
    (item.summaryHint = none → hintStr item = hintMissing) ∧
    unitMissing ≠ "" := by
  refine ⟨?_, ?_, by decide⟩
  · intro h
    unfold buildPromptE unitStr
    rcases h with h | h <;> rw [h] <;> rfl
  · intro h
    unfold hintStr
    rw [h]
    rfl

/-- C8 witness: concrete entry with absent unit and absent hint. -/
theorem prompt_placeholders_witness :
    buildPromptE ⟨3, "物质的变化", none, none, none⟩ =
      promptSeg1 ++ unitMissing ++ promptSeg2 ++ "物质的变化" ++ promptSeg3 ++
        hintMissing ++ promptSeg4 := by
  have h := prompt_placeholders ⟨3, "物质的变化", none, none, none⟩
  rw [h.1 (Or.inl rfl), h.2.1 rfl]

/-! ## Driver-loop lemmas -/

/-- The entry index an event belongs to. -/
def eventIdx : Event → Nat
  | Event.net i _ => i
  | Event.write i _ => i

lemma processEntry_err {it : Entry} {r : HttpResponse} (h : r.ok = false) :
    processEntry it r = Except.error (httpErrMsg r) := by
  simp [processEntry, postJson, h]

lemma processEntry_okResp {it : Entry} {r : HttpResponse} {md : String} (hok : r.ok = true)
    (hc : r.content = some md) (hne : md ≠ "") :
    processEntry it r = Except.ok (renderFile it md) := by
  simp [processEntry, postJson, extractContent, hok, hc, hne]

lemma traceFrom_mem_idx {oracle : Nat → HttpResponse} :
    ∀ (l : List Entry) (b k : Nat) (ev : Event),
      ev ∈ traceFrom oracle b k l → eventIdx ev < b + k := by
  intro l
  induction l with
  | nil =>
    intro b k ev h
    cases k with
    | zero => cases h
    | succ k2 => cases h
  | cons item rest ih =>
    intro b k ev h
    cases k with
    | zero => cases h
    | succ k2 =>
      simp only [traceFrom, List.mem_cons] at h
      rcases h with h | h | h
      · subst h
        simp only [eventIdx]
        omega
      · subst h
        simp only [eventIdx]
        omega
      · have := ih (b + 1) k2 ev h
        omega

lemma runFrom_halt (oracle : Nat → HttpResponse) :
    ∀ (l : List Entry) (b i : Nat), i < l.length →
      (∀ j, j < i → ∃ it f, l[j]? = some it ∧
        processEntry it (oracle (b + j)) = Except.ok f) →
      (oracle (b + i)).ok = false →
      ∃ it, l[i]? = some it ∧
        runFrom oracle b l =
          (traceFrom oracle b i l ++ [Event.net (b + i) (buildPromptE it)],
           some (httpErrMsg (oracle (b + i)))) := by
  intro l
  induction l with
  | nil =>
    intro b i hlen _ _
    simp at hlen
  | cons item rest ih =>
    intro b i hlen hgood hbad
    cases i with
    | zero =>
      have hb : b + 0 = b := by omega
      rw [hb] at hbad
      refine ⟨item, by simp, ?_⟩
      rw [hb]
      simp [runFrom, processEntry_err hbad, traceFrom]
    | succ i2 =>
      obtain ⟨it0, f0, h00, h0ok⟩ := hgood 0 (by omega)
      have hit0 : item = it0 := by simpa using h00
      subst hit0
      have hb0 : b + 0 = b := by omega
      rw [hb0] at h0ok
      have hgood2 : ∀ j, j < i2 → ∃ it f, rest[j]? = some it ∧
          processEntry it (oracle (b + 1 + j)) = Except.ok f := by
        intro j hj
        obtain ⟨it, f, hI, hP⟩ := hgood (j + 1) (by omega)
        refine ⟨it, f, by simpa using hI, ?_⟩
        have harith : b + (j + 1) = b + 1 + j := by omega
        rwa [harith] at hP
      have hbad2 : (oracle (b + 1 + i2)).ok = false := by
        have harith : b + (i2 + 1) = b + 1 + i2 := by omega
        rwa [harith] at hbad
      obtain ⟨it, hit, heq⟩ := ih (b + 1) i2 (by simpa using hlen) hgood2 hbad2
      have harith : b + 1 + i2 = b + (i2 + 1) := by omega
      rw [harith] at heq
      refine ⟨it, by simpa using hit, ?_⟩
      simp only [runFrom, h0ok, heq, traceFrom]
      rw [show writtenFile item (oracle b) = f0 from by simp [writtenFile, h0ok]]
      simp

lemma runFrom_spec (oracle : Nat → HttpResponse) :
    ∀ (l : List Entry) (b : Nat),
      ∃ k, k ≤ l.length ∧
        (∀ j, j < k → ∃ it f, l[j]? = some it ∧
          processEntry it (oracle (b + j)) = Except.ok f) ∧
        ((k = l.length ∧ (runFrom oracle b l).2 = none ∧
            (runFrom oracle b l).1 = traceFrom oracle b k l) ∨
         (∃ it err, l[k]? = some it ∧
            processEntry it (oracle (b + k)) = Except.error err ∧
            (runFrom oracle b l).2 = some err ∧
            (runFrom oracle b l).1 =
              traceFrom oracle b k l ++ [Event.net (b + k) (buildPromptE it)])) := by
  intro l
  induction l with
  | nil =>
    intro b
    refine ⟨0, by omega, ?_, Or.inl ⟨rfl, rfl, rfl⟩⟩
    intro j hj
    omega
  | cons item rest ih =>
    intro b
    cases hpe : processEntry item (oracle b) with
    | error e =>
      have hb : b + 0 = b := by omega
      refine ⟨0, by omega, ?_, Or.inr ⟨item, e, by simp, ?_, ?_, ?_⟩⟩
      · intro j hj
        omega
      · rw [hb]
        exact hpe
      · simp [runFrom, hpe]
      · rw [hb]
        simp [runFrom, hpe, traceFrom]
    | ok f =>
      obtain ⟨k, hk, hgood, hcase⟩ := ih (b + 1)
      refine ⟨k + 1, by simp only [List.length_cons]; omega, ?_, ?_⟩
      · intro j hj
        cases j with
        | zero =>
          refine ⟨item, f, by simp, ?_⟩
          have hb : b + 0 = b := by omega
          rw [hb]
          exact hpe
        | succ j2 =>
          obtain ⟨it, f2, hI, hP⟩ := hgood j2 (by omega)
          refine ⟨it, f2, by simpa using hI, ?_⟩
          have harith : b + (j2 + 1) = b + 1 + j2 := by omega
          rwa [harith]
      · rcases hcase with ⟨hlen2, hr2, hr1⟩ | ⟨it, err, hI, hP, hr2, hr1⟩
        · refine Or.inl ⟨by simp [hlen2], ?_, ?_⟩
          · simp [runFrom, hpe, hr2]
          · simp only [runFrom, hpe, traceFrom]
            rw [show writtenFile item (oracle b) = f from by simp [writtenFile, hpe]]
            simp [hr1]
        · refine Or.inr ⟨it, err, by simpa using hI, ?_, ?_, ?_⟩
          · have harith : b + (k + 1) = b + 1 + k := by omega
            rwa [harith]
          · simp [runFrom, hpe, hr2]
          · have harith : b + 1 + k = b + (k + 1) := by omega
            rw [harith] at hr1
            simp only [runFrom, hpe, traceFrom]
            rw [show writtenFile item (oracle b) = f from by simp [writtenFile, hpe]]
            simp [hr1]

/-! ## Claim theorem: non-success HTTP halts the run -/

/-- C1: when every entry before `i` succeeds and entry `i` receives a
non-success HTTP response, the run fails with the error message
`HTTP <status> <statusText>: <at most 500 chars of body>`, the process
exits with code 1, no file is written for entry `i`, and no later entry's
network call is ever issued (nor any later write). -/
theorem http_failure_halts (outline : List Entry) (oracle : Nat → HttpResponse) (i : Nat)
    (hlen : i < outline.length)
    (hgood : ∀ j, j < i →
      (oracle j).ok = true ∧ ∃ md, (oracle j).content = some md ∧ md ≠ "")
    (hbad : (oracle i).ok = false) :
    (runMain outline oracle).2 =
      some ("HTTP " ++ toString (oracle i).status ++ " " ++ (oracle i).statusText ++
        ": " ++ takeChars 500 (oracle i).bodyText) ∧
    (takeChars 500 (oracle i).bodyText).length ≤ 500 ∧
    exitCodeOf (runMain outline oracle) = 1 ∧
    (∀ f, Event.write i f ∉ (runMain outline oracle).1) ∧
    (∀ j, i < j → (∀ p, Event.net j p ∉ (runMain outline oracle).1) ∧
      (∀ f, Event.write j f ∉ (runMain outline oracle).1)) := by
  have hgood2 : ∀ j, j < i → ∃ it f, outline[j]? = some it ∧
      processEntry it (oracle (0 + j)) = Except.ok f := by
    intro j hj
    obtain ⟨hok, md, hc, hne⟩ := hgood j hj
    have hjl : j < outline.length := by omega
    refine ⟨outline[j], renderFile outline[j] md, by simp, ?_⟩
    have hz : 0 + j = j := by omega
    rw [hz]
    exact processEntry_okResp hok hc hne
  obtain ⟨it, hit, heq⟩ := runFrom_halt oracle outline 0 i hlen hgood2
    (by simpa using hbad)
  have heq2 : runMain outline oracle =
      (traceFrom oracle 0 i outline ++ [Event.net (0 + i) (buildPromptE it)],
       some (httpErrMsg (oracle (0 + i)))) := heq
  have hz : 0 + i = i := by omega
  rw [hz] at heq2
  refine ⟨?_, ?_, ?_, ?_, ?_⟩
  · rw [heq2]
    rfl
  · show (String.mk ((oracle i).bodyText.data.take 500)).length ≤ 500
    show ((oracle i).bodyText.data.take 500).length ≤ 500
    rw [List.length_take]
    omega
  · rw [heq2]
    rfl
  · intro f hf
    rw [heq2] at hf
    simp only [List.mem_append, List.mem_singleton] at hf
    rcases hf with hf | hf
    · have := traceFrom_mem_idx outline 0 i (Event.write i f) hf
      simp [eventIdx] at this
    · cases hf
  · intro j hj
    constructor
    · intro p hp
      rw [heq2] at hp
      simp only [List.mem_append, List.mem_singleton] at hp
      rcases hp with hp | hp
      · have := traceFrom_mem_idx outline 0 i (Event.net j p) hp
        simp only [eventIdx] at this
        omega
      · have : j = i := by
          cases hp
          rfl
        omega
    · intro f hf
      rw [heq2] at hf
      simp only [List.mem_append, List.mem_singleton] at hf
      rcases hf with hf | hf
      · have := traceFrom_mem_idx outline 0 i (Event.write j f) hf
        simp only [eventIdx] at this
        omega
      · cases hf

/-- Entries for the concrete failure scenario. -/
def sampleEntryA : Entry := ⟨1, "电路", some "能量", some "观察电路", some ["电流"]⟩

/-- Second sample entry. -/
def sampleEntryB : Entry := ⟨2, "磁铁", none, none, none⟩

/-- Oracle: entry 0 succeeds, entry 1 is rate limited. -/
def sampleOracleC1 : Nat → HttpResponse := fun i =>
  if i = 0 then ⟨true, 200, "OK", "", some "## 内容"⟩
  else ⟨false, 429, "Too Many Requests", "rate limited", none⟩

/-- C1 witness: a concrete 429 on the second entry. -/
theorem http_failure_halts_witness :
    (runMain [sampleEntryA, sampleEntryB] sampleOracleC1).2 =
        some "HTTP 429 Too Many Requests: rate limited" ∧
    exitCodeOf (runMain [sampleEntryA, sampleEntryB] sampleOracleC1) = 1 ∧
    (∀ f, Event.write 1 f ∉ (runMain [sampleEntryA, sampleEntryB] sampleOracleC1).1) := by
  have h := http_failure_halts [sampleEntryA, sampleEntryB] sampleOracleC1 1
    (by decide)
    (by
      intro j hj
      have hj0 : j = 0 := by omega
      subst hj0
      exact ⟨rfl, "## 内容", rfl, by decide⟩)
    rfl
  refine ⟨?_, h.2.2.1, h.2.2.2.1⟩
  rw [h.1]
  rfl

/-! ## Claim theorem: strictly sequential driver -/

/-- C9: for every outline and oracle there is a cut `k` such that the first
`k` entries each succeed and the emitted trace is exactly the canonical
strictly sequential trace (entry `j`'s network call immediately followed by
entry `j`'s file write, for `j < k` in order), followed — when entry `k`
fails — by entry `k`'s network call alone.  In this sequential-trace
embedding of the `await`-based loop this says precisely that entry `i`'s
network call precedes its write, which precedes entry `i+1`'s network
call, and that operations of distinct entries never interleave. -/
theorem driver_sequential (outline : List Entry) (oracle : Nat → HttpResponse) :
    ∃ k, k ≤ outline.length ∧
      (∀ j, j < k → ∃ it f, outline[j]? = some it ∧
        processEntry it (oracle j) = Except.ok f) ∧
      ((k = outline.length ∧ (runMain outline oracle).2 = none ∧
          (runMain outline oracle).1 = traceFrom oracle 0 k outline) ∨
       (∃ it err, outline[k]? = some it ∧
          processEntry it (oracle k) = Except.error err ∧
          (runMain outline oracle).2 = some err ∧
          (runMain outline oracle).1 =
            traceFrom oracle 0 k outline ++ [Event.net k (buildPromptE it)])) := by
  obtain ⟨k, h1, h2, h3⟩ := runFrom_spec oracle outline 0
  refine ⟨k, h1, ?_, ?_⟩
  · intro j hj
    simpa using h2 j hj
  · simpa using h3

/-! ## Claim theorem: credential resolution -/

/-- C2: credential resolution tries the environment variable, then the
single-line key file, then the env-style file scanned line by line (via
`parseEnvLine`, which strips one surrounding quote pair), in that order;
a missing or unreadable (or blank) file is skipped rather than an error;
and when no source yields a non-empty value the process prints a
diagnostic naming all three accepted methods and exits with code 1 having
issued no network call (the event trace is empty). -/
theorem key_resolution (sys : SysEnv) (outline : List Entry)
    (oracle : Nat → HttpResponse) :
    (∀ k, sys.apiKeyEnv = some k → k ≠ "" → readKeyFallback sys = k) ∧
    (∀ raw, (sys.apiKeyEnv = none ∨ sys.apiKeyEnv = some "") →
      sys.keyFileContent = some raw → jsTrimS raw ≠ "" →
      readKeyFallback sys = jsTrimS raw) ∧
    ((sys.apiKeyEnv = none ∨ sys.apiKeyEnv = some "") →
      (sys.keyFileContent = none ∨
        ∃ r, sys.keyFileContent = some r ∧ jsTrimS r = "") →
      ∀ raw, sys.envLocalContent = some raw → jsTrimS raw ≠ "" →
      readKeyFallback sys = (firstEnvValue (splitLinesJs (jsTrimS raw))).getD "") ∧
    ((sys.apiKeyEnv = none ∨ sys.apiKeyEnv = some "") →
      (sys.keyFileContent = none ∨
        ∃ r, sys.keyFileContent = some r ∧ jsTrimS r = "") →
      (sys.envLocalContent = none ∨
        ∃ r, sys.envLocalContent = some r ∧ jsTrimS r = "") →
      readKeyFallback sys = "") ∧
    (readKeyFallback sys = "" →
      runProgram sys outline oracle = (1, [missingKeyMsg], []) ∧
      containsSub "DEEPSEEK_API_KEY".data missingKeyMsg.data = true ∧
      containsSub "scripts/.deepseek_key".data missingKeyMsg.data = true ∧
      containsSub ".env.local".data missingKeyMsg.data = true) := by
  have henv : ∀ h : sys.apiKeyEnv = none ∨ sys.apiKeyEnv = some "",
      readKeyFallback sys = readKeyFiles sys := by
    intro h
    unfold readKeyFallback
    rcases h with h | h <;> rw [h]
    simp
  refine ⟨?_, ?_, ?_, ?_, ?_⟩
  · intro k hk hne
    unfold readKeyFallback
    rw [hk]
    simp [hne]
  · intro raw he hk hne
    rw [henv he]
    unfold readKeyFiles tryKeyFile
    rw [hk]
    simp only [if_neg hne]
  · intro he hkf raw hel hne
    rw [henv he]
    unfold readKeyFiles
    have hkf2 : tryKeyFile sys.keyFileContent = none := by
      rcases hkf with h | ⟨r, hr, hrt⟩
      · rw [h]
        rfl
      · unfold tryKeyFile
        rw [hr]
        simp [hrt]
    rw [hkf2]
    unfold tryEnvLocal
    rw [hel]
    simp only [if_neg hne]
    cases firstEnvValue (splitLinesJs (jsTrimS raw)) <;> rfl
  · intro he hkf hel
    rw [henv he]
    unfold readKeyFiles
    have hkf2 : tryKeyFile sys.keyFileContent = none := by
      rcases hkf with h | ⟨r, hr, hrt⟩
      · rw [h]
        rfl
      · unfold tryKeyFile
        rw [hr]
        simp [hrt]
    have hel2 : tryEnvLocal sys.envLocalContent = none := by
      rcases hel with h | ⟨r, hr, hrt⟩
      · rw [h]
        rfl
      · unfold tryEnvLocal
        rw [hr]
        simp [hrt]
    rw [hkf2, hel2]
  · intro hempty
    refine ⟨?_, by decide, by decide, by decide⟩
    unfold runProgram
    rw [if_pos hempty]

/-- C2 witness: each resolution path at concrete inputs, the abort, and
two lines exercising the JS dot semantics of the value regex: a stray
carriage return inside the value makes the line match nothing (so the run
aborts), while a trailing carriage return on the line is outside the
capture group (so the quote before it is still stripped). -/
theorem key_resolution_witness :
    readKeyFallback ⟨some "envKey", some "fileKey", none⟩ = "envKey" ∧
    readKeyFallback ⟨some "", some " fileKey \n", none⟩ = "fileKey" ∧
    readKeyFallback ⟨none, none, some "A=1\nDEEPSEEK_API_KEY='zz'\n"⟩ = "zz" ∧
    readKeyFallback ⟨none, some "  ", some "nothing here"⟩ = "" ∧
    readKeyFallback ⟨none, none, some "DEEPSEEK_API_KEY=ab\rcd"⟩ = "" ∧
    readKeyFallback ⟨none, none, some "DEEPSEEK_API_KEY='v'\r\r\nB=2"⟩ = "v" ∧
    runProgram ⟨none, none, none⟩ [sampleEntryB] sampleOracleC1 =
      (1, [missingKeyMsg], []) := by
  have h1 := (key_resolution ⟨some "envKey", some "fileKey", none⟩ [] sampleOracleC1).1
    "envKey" rfl (by decide)
  have h2 := (key_resolution ⟨some "", some " fileKey \n", none⟩ [] sampleOracleC1).2.1
    " fileKey \n" (Or.inr rfl) rfl (by decide)
  have h3 := (key_resolution ⟨none, none, some "A=1\nDEEPSEEK_API_KEY='zz'\n"⟩ []
    sampleOracleC1).2.2.1 (Or.inl rfl) (Or.inl rfl)
    "A=1\nDEEPSEEK_API_KEY='zz'\n" rfl (by decide)
  have h4 := (key_resolution ⟨none, some "  ", some "nothing here"⟩ []
    sampleOracleC1).2.2.1 (Or.inl rfl)
    (Or.inr ⟨"  ", rfl, by decide⟩) "nothing here" rfl (by decide)
  have h5 := (key_resolution ⟨none, none, some "DEEPSEEK_API_KEY=ab\rcd"⟩ []
    sampleOracleC1).2.2.1 (Or.inl rfl) (Or.inl rfl)
    "DEEPSEEK_API_KEY=ab\rcd" rfl (by decide)
  have h6 := (key_resolution ⟨none, none, some "DEEPSEEK_API_KEY='v'\r\r\nB=2"⟩ []
    sampleOracleC1).2.2.1 (Or.inl rfl) (Or.inl rfl)
    "DEEPSEEK_API_KEY='v'\r\r\nB=2" rfl (by decide)
  have h7 := ((key_resolution ⟨none, none, none⟩ [sampleEntryB] sampleOracleC1).2.2.2.2
    (by decide)).1
  refine ⟨h1, ?_, ?_, ?_, ?_, ?_, h7⟩
  · rw [h2]
    decide
  · rw [h3]
    decide
  · rw [h4]
    decide
  · rw [h5]
    decide
  · rw [h6]
    decide

/-! ## Image-keyword extraction lemmas -/

lemma ciStartsWith_append_nl {pat : List Char} (hpat : ∀ p ∈ pat, p ≠ '\n') :
    ∀ (l r : List Char), ciStartsWith pat (l ++ '\n' :: r) = true →
      ciStartsWith pat l = true := by
  induction pat with
  | nil => intro l r _; rfl
  | cons p ps ih =>
    intro l r h
    cases l with
    | nil =>
      exfalso
      have hp : p ≠ '\n' := hpat p (by simp)
      simp only [List.nil_append, ciStartsWith, Bool.and_eq_true, decide_eq_true_eq] at h
      exact hp (by rw [← h.1]; rfl)
    | cons c l2 =>
      simp only [List.cons_append, ciStartsWith, Bool.and_eq_true] at h ⊢
      exact ⟨h.1, ih (fun q hq => hpat q (by simp [hq])) l2 r h.2⟩

lemma unsplashLit_no_nl : ∀ p ∈ unsplashLit, p ≠ '\n' := by decide

lemma ciStartsWith_nl_false (r : List Char) :
    ciStartsWith unsplashLit ('\n' :: r) = false := by
  show ciStartsWith ('u' :: "nsplash:".data) ('\n' :: r) = false
  simp [ciStartsWith, show jsToLower '\n' = '\n' from rfl]

lemma hasCI_cons_false {c : Char} {cs : List Char}
    (h : hasCIUnsplash (c :: cs) = false) :
    ciStartsWith unsplashLit (c :: cs) = false ∧ hasCIUnsplash cs = false := by
  simpa [hasCIUnsplash, Bool.or_eq_false_iff] using h

lemma searchUnsplash_skip : ∀ (bl : List Char), hasCIUnsplash bl = false →
    ∀ r, searchUnsplash (bl ++ '\n' :: r) = searchUnsplash r := by
  intro bl
  induction bl with
  | nil =>
    intro _ r
    show searchUnsplash ('\n' :: r) = searchUnsplash r
    simp [searchUnsplash, ciStartsWith_nl_false]
  | cons c cs ih =>
    intro h r
    obtain ⟨h1, h2⟩ := hasCI_cons_false h
    have hci : ciStartsWith unsplashLit (c :: (cs ++ '\n' :: r)) = false := by
      by_contra hx
      rw [Bool.not_eq_false] at hx
      have := ciStartsWith_append_nl unsplashLit_no_nl (c :: cs) r
        (by simpa using hx)
      rw [h1] at this
      cases this
    show searchUnsplash (c :: (cs ++ '\n' :: r)) = searchUnsplash r
    simp only [searchUnsplash, hci, Bool.false_eq_true, if_false]
    exact ih h2 r

lemma ci_self_map : ∀ (t r : List Char), ciStartsWith (t.map jsToLower) (t ++ r) = true := by
  intro t
  induction t with
  | nil => intro r; rfl
  | cons a t2 ih =>
    intro r
    simp only [List.map_cons, List.cons_append, ciStartsWith, Bool.and_eq_true,
      decide_eq_true_eq]
    exact ⟨by simp, ih r⟩

lemma dropWhile_head_false {p : Char → Bool} : ∀ {l : List Char} {c : Char}
    {t : List Char}, l.dropWhile p = c :: t → p c = false := by
  intro l
  induction l with
  | nil => intro c t h; cases h
  | cons a l2 ih =>
    intro c t h
    by_cases ha : p a = true
    · rw [List.dropWhile_cons, if_pos ha] at h
      exact ih h
    · rw [List.dropWhile_cons, if_neg ha] at h
      obtain ⟨rfl, -⟩ : a = c ∧ l2 = t := by
        injection h with h1 h2
        exact ⟨h1, h2⟩
      simpa using ha

lemma dropWhile_idem (p : Char → Bool) (l : List Char) :
    (l.dropWhile p).dropWhile p = l.dropWhile p := by
  cases h : l.dropWhile p with
  | nil => rfl
  | cons c t =>
    have hc : p c = false := dropWhile_head_false h
    simp [List.dropWhile_cons, hc]

lemma jsTrim_dropWhile (kl : List Char) :
    jsTrimList (kl.dropWhile isJsWs) = jsTrimList kl := by
  unfold jsTrimList
  rw [dropWhile_idem]

lemma dropWhile_ne_nil_of_trim {kl : List Char} (h : jsTrimList kl ≠ []) :
    kl.dropWhile isJsWs ≠ [] := by
  intro hx
  apply h
  unfold jsTrimList
  rw [hx]
  rfl

lemma takeWhile_all {p : Char → Bool} : ∀ {l : List Char},
    (∀ c ∈ l, p c = true) → l.takeWhile p = l := by
  intro l h
  induction l with
  | nil => rfl
  | cons c t ih =>
    simp only [List.takeWhile_cons, h c (by simp), if_true]
    rw [ih (fun d hd => h d (by simp [hd]))]

lemma removeUnsplash_cons_skip {c : Char} {cs : List Char}
    (h : ciStartsWith unsplashLit (c :: cs) = false) :
    removeUnsplash (c :: cs) = c :: removeUnsplash cs := by
  simp [removeUnsplash, h]

lemma removeUnsplash_skip : ∀ (bl : List Char), hasCIUnsplash bl = false →
    ∀ r, removeUnsplash (bl ++ '\n' :: r) = bl ++ removeUnsplash ('\n' :: r) := by
  intro bl
  induction bl with
  | nil => intro _ r; rfl
  | cons c cs ih =>
    intro h r
    obtain ⟨h1, h2⟩ := hasCI_cons_false h
    have hci : ciStartsWith unsplashLit (c :: (cs ++ '\n' :: r)) = false := by
      by_contra hx
      rw [Bool.not_eq_false] at hx
      have := ciStartsWith_append_nl unsplashLit_no_nl (c :: cs) r
        (by simpa using hx)
      rw [h1] at this
      cases this
    show removeUnsplash (c :: (cs ++ '\n' :: r)) = (c :: cs) ++ removeUnsplash ('\n' :: r)
    rw [removeUnsplash_cons_skip hci, ih h2 r]
    simp

lemma removeUnsplash_nl (r : List Char) :
    removeUnsplash ('\n' :: r) = '\n' :: removeUnsplash r := by
  simp [removeUnsplash, ciStartsWith_nl_false]

lemma search_none_of_noCI : ∀ {l : List Char}, hasCIUnsplash l = false →
    searchUnsplash l = none := by
  intro l h
  induction l with
  | nil => rfl
  | cons c cs ih =>
    obtain ⟨h1, h2⟩ := hasCI_cons_false h
    simp only [searchUnsplash, h1, Bool.false_eq_true, if_false]
    exact ih h2

/-! ## Substring lemmas -/

lemma startsWithList_extend : ∀ {pat l : List Char} (r : List Char),
    startsWithList pat l = true → startsWithList pat (l ++ r) = true := by
  intro pat
  induction pat with
  | nil => intro l r _; rfl
  | cons p ps ih =>
    intro l r h
    cases l with
    | nil => cases h
    | cons c l2 =>
      simp only [List.cons_append, startsWithList, Bool.and_eq_true] at h ⊢
      exact ⟨h.1, ih r h.2⟩

lemma containsSub_nil_pat : ∀ (l : List Char), containsSub [] l = true := by
  intro l
  cases l with
  | nil => rfl
  | cons c cs => simp [containsSub, startsWithList]

lemma containsSub_mono_left : ∀ {pat : List Char} (l r : List Char),
    containsSub pat l = true → containsSub pat (l ++ r) = true := by
  intro pat l
  induction l with
  | nil =>
    intro r h
    have : pat = [] := by simpa [containsSub, List.isEmpty_iff] using h
    subst this
    simpa using containsSub_nil_pat r
  | cons c cs ih =>
    intro r h
    simp only [containsSub, Bool.or_eq_true] at h
    rcases h with h | h
    · simp only [List.cons_append, containsSub, Bool.or_eq_true]
      exact Or.inl (startsWithList_extend r h)
    · simp only [List.cons_append, containsSub, Bool.or_eq_true]
      exact Or.inr (ih r h)

lemma containsSub_append_right : ∀ {pat : List Char} (l r : List Char),
    containsSub pat r = true → containsSub pat (l ++ r) = true := by
  intro pat l
  induction l with
  | nil => intro r h; exact h
  | cons c cs ih =>
    intro r h
    simp only [List.cons_append, containsSub, Bool.or_eq_true]
    exact Or.inr (ih r h)

lemma ci_of_startsWith : ∀ (t : List Char) {k l : List Char},
    startsWithList (t ++ k) l = true → ciStartsWith (t.map jsToLower) l = true := by
  intro t
  induction t with
  | nil => intro k l _; rfl
  | cons a t2 ih =>
    intro k l h
    cases l with
    | nil => cases h
    | cons c l2 =>
      simp only [List.cons_append, startsWithList, Bool.and_eq_true,
        decide_eq_true_eq] at h
      obtain ⟨rfl, h2⟩ := h
      simp only [List.map_cons, ciStartsWith, Bool.and_eq_true, decide_eq_true_eq]
      exact ⟨by simp, ih h2⟩

lemma hasCI_of_containsSub {tl kl : List Char} (htag : tl.map jsToLower = unsplashLit) :
    ∀ l, containsSub (tl ++ kl) l = true → hasCIUnsplash l = true := by
  have htl_ne : tl ≠ [] := by
    intro hx
    rw [hx] at htag
    exact absurd htag.symm (by decide)
  intro l
  induction l with
  | nil =>
    intro h
    exfalso
    have : tl ++ kl = [] := by simpa [containsSub, List.isEmpty_iff] using h
    exact htl_ne (List.append_eq_nil.mp this).1
  | cons c cs ih =>
    intro h
    simp only [containsSub, Bool.or_eq_true] at h
    rcases h with h | h
    · have := ci_of_startsWith tl h
      rw [htag] at this
      simp [hasCIUnsplash, this]
    · simp [hasCIUnsplash, ih h]

lemma hasCI_append_nl : ∀ {bl : List Char}, hasCIUnsplash bl = false →
    hasCIUnsplash (bl ++ ['\n']) = false := by
  intro bl h
  induction bl with
  | nil => simp [hasCIUnsplash, ciStartsWith_nl_false]
  | cons c cs ih =>
    obtain ⟨h1, h2⟩ := hasCI_cons_false h
    have hci : ciStartsWith unsplashLit (c :: (cs ++ ['\n'])) = false := by
      by_contra hx
      rw [Bool.not_eq_false] at hx
      have := ciStartsWith_append_nl unsplashLit_no_nl (c :: cs) []
        (by simpa using hx)
      rw [h1] at this
      cases this
    show hasCIUnsplash (c :: (cs ++ ['\n'])) = false
    simp [hasCIUnsplash, hci, ih h2]

lemma containsSub_trim_false {pat x : List Char} (h : containsSub pat x = false) :
    containsSub pat (jsTrimList x) = false := by
  by_contra hx
  rw [Bool.not_eq_false] at hx
  obtain ⟨w1, hw1⟩ := List.dropWhile_suffix (l := x) isJsWs
  obtain ⟨w2, hw2⟩ := List.dropWhile_suffix (l := (x.dropWhile isJsWs).reverse) isJsWs
  have hy : x.dropWhile isJsWs = jsTrimList x ++ w2.reverse := by
    have := congrArg List.reverse hw2
    simp only [List.reverse_append, List.reverse_reverse] at this
    rw [← this]
    rfl
  have hcy : containsSub pat (x.dropWhile isJsWs) = true := by
    rw [hy]
    exact containsSub_mono_left _ _ hx
  have hcx : containsSub pat x = true := by
    rw [← hw1]
    exact containsSub_append_right _ _ hcy
  rw [h] at hcx
  cases hcx

/-! ## Claim theorems: image-keyword extraction -/

/-- A line matching the image-keyword marker as the claim words it:
case-insensitive `unsplash:` followed on the same line by a keyword that is
non-blank after trimming. -/
def isMarkerLine (l : List Char) : Bool :=
  ciStartsWith unsplashLit l && !(jsTrimList (l.drop 9)).isEmpty

/-- C3 counterexample.  First input: the completion ends in the trailing
marker line `unsplash: dogs`, yet the written body still contains that line
and the image keyword is `cats` (the match and replace regexes act on the
first case-insensitive occurrence, not the trailing line).  Second input:
no line of the completion is a marker line (the keyword sits on the next
line), yet an image field is still emitted because the whitespace class of
the match regex crosses the newline. -/
theorem image_extraction_counterexample :
    (isMarkerLine "unsplash: dogs".data = true ∧
     (splitLinesJs "UNSPLASH: cats\nhello\nunsplash: dogs").getLast? =
       some "unsplash: dogs".data ∧
     extractImage "UNSPLASH: cats\nhello\nunsplash: dogs" =
       ("cats", "hello\nunsplash: dogs") ∧
     containsSub "unsplash: dogs".data
       (extractImage "UNSPLASH: cats\nhello\nunsplash: dogs").2.data = true ∧
     (fmParts "生物" "" 1 none
         (extractImage "UNSPLASH: cats\nhello\nunsplash: dogs").1)[5]? =
       some (some "image: \"https://source.unsplash.com/featured/?cats&sig=1\"")) ∧
    ((splitLinesJs "## A\nunsplash:\ncats").all (fun l => !(isMarkerLine l)) = true ∧
     (extractImage "## A\nunsplash:\ncats").1 = "cats" ∧
     (fmParts "生物" "" 1 none (extractImage "## A\nunsplash:\ncats").1)[5]? =
       some (some "image: \"https://source.unsplash.com/featured/?cats&sig=1\"")) := by
  decide

/-- C3 (amended): when the only case-insensitive occurrence of `unsplash:`
in the completion text starts its trailing line, and that line is the
marker followed on the same line by a keyword that is non-blank after
trimming, then the extracted keyword is the trimmed keyword, the written
body does not contain the marker line, and the front matter's image entry
is the unsplash URL whose query is the URL-encoded keyword followed by
`&sig=` and the entry's order; and when the completion text contains no
case-insensitive occurrence of `unsplash:` at all, the body is untouched
and the image entry is omitted (`undefined` in the source array). -/
theorem image_extraction_amended (body tag kw : String) (item : Entry) (md : String)
    (hmd : md.data = body.data ++ '\n' :: (tag.data ++ kw.data))
    (hbody : hasCIUnsplash body.data = false)
    (htag : tag.data.map jsToLower = unsplashLit)
    (hkw_nl : ∀ c ∈ kw.data, c ≠ '\n')
    (hkw_ne : jsTrimS kw ≠ "") :
    (extractImage md).1 = jsTrimS kw ∧
    containsSub (tag.data ++ kw.data) ((extractImage md).2).data = false ∧
    (fmParts item.title (item.unit.getD "") item.order item.keywords
        (extractImage md).1)[5]? =
      some (some ("image: \"https://source.unsplash.com/featured/?" ++
        encodeURIComponent (jsTrimS kw) ++ "&sig=" ++ toString item.order ++ "\"")) ∧
    (∀ md2 : String, hasCIUnsplash md2.data = false →
      (extractImage md2).1 = "" ∧ (extractImage md2).2 = md2 ∧
      (fmParts item.title (item.unit.getD "") item.order item.keywords
          (extractImage md2).1)[5]? = some none) := by
  have htrim_ne : jsTrimList kw.data ≠ [] := by
    intro hx
    apply hkw_ne
    show String.mk (jsTrimList kw.data) = ""
    rw [hx]
  have hkl_ne : kw.data ≠ [] := by
    intro hx
    apply htrim_ne
    rw [hx]
    rfl
  have hdw_ne : kw.data.dropWhile isJsWs ≠ [] := dropWhile_ne_nil_of_trim htrim_ne
  have htl_len : tag.data.length = 9 := by
    have hlen := congrArg List.length htag
    simpa using hlen
  have hci : ciStartsWith unsplashLit (tag.data ++ kw.data) = true := by
    rw [← htag]
    exact ci_self_map tag.data kw.data
  have hdrop : (tag.data ++ kw.data).drop 9 = kw.data := by
    rw [← htl_len]
    exact List.drop_left tag.data kw.data
  obtain ⟨c0, tl2, htl⟩ : ∃ c0 tl2, tag.data = c0 :: tl2 := by
    cases hx : tag.data with
    | nil => rw [hx] at htl_len; cases htl_len
    | cons a b => exact ⟨a, b, rfl⟩
  have hci' : ciStartsWith unsplashLit (c0 :: (tl2 ++ kw.data)) = true := by
    rw [← List.cons_append, ← htl]
    exact hci
  have hdrop' : (c0 :: (tl2 ++ kw.data)).drop 9 = kw.data := by
    rw [← List.cons_append, ← htl]
    exact hdrop
  have hmt : matchTail kw.data = some (kw.data.dropWhile isJsWs) := by
    simp only [matchTail]
    rw [if_neg (by simpa [List.isEmpty_iff] using hdw_ne)]
    congr 1
    apply takeWhile_all
    intro c hc
    have hck : c ∈ kw.data := (List.dropWhile_suffix isJsWs).sublist.mem hc
    simpa using hkw_nl c hck
  have hsearch_tail : searchUnsplash (tag.data ++ kw.data) =
      some (kw.data.dropWhile isJsWs) := by
    rw [htl, List.cons_append]
    simp only [searchUnsplash, hci', if_true, hdrop', hmt]
  have hsearch : searchUnsplash md.data = some (kw.data.dropWhile isJsWs) := by
    rw [hmd, searchUnsplash_skip body.data hbody, hsearch_tail]
  have hkw_eq : jsTrimS (String.mk (kw.data.dropWhile isJsWs)) = jsTrimS kw := by
    show String.mk (jsTrimList (kw.data.dropWhile isJsWs)) = String.mk (jsTrimList kw.data)
    rw [jsTrim_dropWhile]
  have hfst : (extractImage md).1 = jsTrimS kw := by
    unfold extractImage
    rw [hsearch]
    exact hkw_eq
  have hrm_tail : removeUnsplash (tag.data ++ kw.data) = [] := by
    obtain ⟨k0, kl2, hkl⟩ : ∃ k0 kl2, kw.data = k0 :: kl2 := by
      cases hx : kw.data with
      | nil => exact absurd hx hkl_ne
      | cons a b => exact ⟨a, b, rfl⟩
    have hk0 : k0 ≠ '\n' := hkw_nl k0 (by rw [hkl]; simp)
    have hcond : (ciStartsWith unsplashLit (c0 :: (tl2 ++ kw.data)) &&
        (match (c0 :: (tl2 ++ kw.data)).drop 9 with
         | d :: _ => !(d = '\n')
         | [] => false)) = true := by
      rw [hci', hdrop', hkl]
      simp [hk0]
    have hdwnil : ((c0 :: (tl2 ++ kw.data)).drop 9).dropWhile
        (fun d => !(d = '\n')) = [] := by
      rw [hdrop']
      rw [List.dropWhile_eq_nil_iff]
      intro c hc
      simpa using hkw_nl c hc
    rw [htl, List.cons_append]
    simp only [removeUnsplash, hcond, if_true, hdwnil]
  have hremove : removeUnsplash md.data = body.data ++ ['\n'] := by
    rw [hmd, removeUnsplash_skip body.data hbody, removeUnsplash_nl, hrm_tail]
  have hsnd : (extractImage md).2 = String.mk (jsTrimList (body.data ++ ['\n'])) := by
    unfold extractImage
    rw [hsearch]
    show jsTrimS (String.mk (removeUnsplash md.data)) = _
    rw [hremove]
    rfl
  refine ⟨hfst, ?_, ?_, ?_⟩
  · rw [hsnd]
    show containsSub (tag.data ++ kw.data) (jsTrimList (body.data ++ ['\n'])) = false
    apply containsSub_trim_false
    by_contra hx
    rw [Bool.not_eq_false] at hx
    have hcontra := hasCI_of_containsSub htag _ hx
    rw [hasCI_append_nl hbody] at hcontra
    cases hcontra
  · rw [hfst]
    show some (if jsTrimS kw = "" then none
               else some ("image: \"https://source.unsplash.com/featured/?" ++
                 encodeURIComponent (jsTrimS kw) ++ "&sig=" ++ toString item.order ++
                 "\"")) = _
    rw [if_neg hkw_ne]
  · intro md2 h2
    have hs2 : searchUnsplash md2.data = none := search_none_of_noCI h2
    refine ⟨?_, ?_, ?_⟩
    · unfold extractImage
      rw [hs2]
    · unfold extractImage
      rw [hs2]
    · unfold extractImage
      rw [hs2]
      rfl

/-- C3 witness: a completion whose single marker occurrence is the trailing
line, and a completion with no occurrence at all. -/
theorem image_extraction_amended_witness :
    (extractImage "## 预习目标\n练一练\nUnsplash: science kids").1 = "science kids" ∧
    containsSub ("Unsplash:".data ++ " science kids".data)
      ((extractImage "## 预习目标\n练一练\nUnsplash: science kids").2).data = false ∧
    (fmParts "小小" "" 4 none
        (extractImage "## 预习目标\n练一练\nUnsplash: science kids").1)[5]? =
      some (some
        "image: \"https://source.unsplash.com/featured/?science%20kids&sig=4\"") ∧
    (extractImage "纯文本，没有标记").1 = "" := by
  have h := image_extraction_amended "## 预习目标\n练一练" "Unsplash:" " science kids"
    ⟨4, "小小", none, none, none⟩ "## 预习目标\n练一练\nUnsplash: science kids"
    (by decide) (by decide) (by decide) (by decide) (by decide)
  refine ⟨?_, h.2.1, ?_, ?_⟩
  · rw [h.1]
    decide
  · exact Eq.trans h.2.2.1 (by decide)
  · exact (h.2.2.2 "纯文本，没有标记" (by decide)).1
